import Mathlib

/-!
Verification of the Bill2Moneywiz bill-normalisation script (`main.py`).

The development shallowly embeds the script's pure core:

* the substring test used for header-column discovery (Python `sub in s`);
* the anchored date regex `(\d{4}-\d{2}-\d{2})`;
* `float(...)` parsing of plain decimal literals and `str(...)` printing of
  the resulting value;
* the two row-processing pipelines `process_alipay_csv` / `process_weixin_csv`
  (column resolution, per-row filtering and rewriting, statistics);
* the quote-all CSV writer and a standard quote-aware CSV reader;
* the encoding fallback chain of `read_file_with_encoding`.

Machine floats are modelled by exact decimal values `num / 10 ^ exp`: every
amount the script handles is a short decimal literal, for which parsing,
negation and shortest-round-trip printing agree with the exact-decimal model.
The float grammar is restricted to optional sign plus decimal digits with an
optional point (no exponent, inf/nan, underscores or surrounding whitespace:
none occur in bill exports), and `\d` is read as the ASCII digits the date
format uses.
-/

/-- ASCII digit test: the `\d` of the source regex and the digits of the
`float` grammar (codepoints 48–57). -/
def isDig (c : Char) : Bool := decide (48 ≤ c.toNat ∧ c.toNat ≤ 57)

/-- Test that `pre` is an initial run of `l`. -/
def listStarts : List Char → List Char → Bool
  | [], _ => true
  | _ :: _, [] => false
  | a :: pre, b :: l => a = b && listStarts pre l

/-- Occurrence of `sub` anywhere in `l`: the search behind Python's `in`. -/
def hasSub (sub : List Char) : List Char → Bool
  | [] => sub.isEmpty
  | c :: t => listStarts sub (c :: t) || hasSub sub t

/-- Python's substring test `sub in s`. -/
def pyIn (sub s : String) : Bool := hasSub sub.toList s.toList

/-- Maximal leading digit run, with the unconsumed remainder. -/
def takeDigits : List Char → List Char × List Char
  | [] => ([], [])
  | c :: t =>
    if isDig c then
      let p := takeDigits t
      (c :: p.1, p.2)
    else ([], c :: t)

/-- Value of a little-endian digit-character list. -/
def digitsValLE : List Char → Nat
  | [] => 0
  | c :: t => (c.toNat - 48) + 10 * digitsValLE t

/-- Value of a big-endian digit-character list, as written in a literal. -/
def digitsVal (ds : List Char) : Nat := digitsValLE ds.reverse

/-- The anchored regex `re.match(r'(\d{4}-\d{2}-\d{2})', s)`: the ten-character
date prefix when it is present. -/
def dateMatch (s : String) : Option String :=
  match s.toList with
  | y1 :: y2 :: y3 :: y4 :: h1 :: m1 :: m2 :: h2 :: d1 :: d2 :: _ =>
    if isDig y1 && isDig y2 && isDig y3 && isDig y4 && h1 = '-' &&
       isDig m1 && isDig m2 && h2 = '-' && isDig d1 && isDig d2 then
      some (String.mk [y1, y2, y3, y4, h1, m1, m2, h2, d1, d2])
    else none
  | _ => none

/-- Python `s.replace(c, "")` for a one-character pattern: removal of every
occurrence of `c`. -/
def pyReplaceChar (c : Char) (s : String) : String :=
  String.mk (s.toList.filter (fun a => a ≠ c))

/-- Exact decimal `num / 10 ^ exp`: the value a plain decimal literal denotes.
Stands in for the machine float the script builds with `float(...)`. -/
structure PyFloat where
  num : Int
  exp : Nat
deriving DecidableEq

/-- Rational value of a decimal. -/
def PyFloat.val (x : PyFloat) : ℚ := (x.num : ℚ) / (10 : ℚ) ^ x.exp

/-- Apply the leading sign of a literal. -/
def mkSign (neg : Bool) (n : Nat) : Int := if neg then -(n : Int) else (n : Int)

/-- Optional leading sign of a literal: whether it is negative, and the rest. -/
def stripSign (cs : List Char) : Bool × List Char :=
  match cs with
  | [] => (false, [])
  | c :: t => if c = '-' then (true, t) else if c = '+' then (false, t) else (false, c :: t)

/-- Model of `float(s)` on plain decimal literals: optional sign, then
digits with an optional decimal point; anything else fails with the
`ValueError` the script turns into a row skip. -/
def pyFloatOfString (s : String) : Option PyFloat :=
  let sp := stripSign s.toList
  let p := takeDigits sp.2
  match p.2 with
  | [] =>
    if p.1.isEmpty then none
    else some ⟨mkSign sp.1 (digitsVal p.1), 0⟩
  | c :: r2 =>
    if c = '.' then
      let q := takeDigits r2
      if q.2.isEmpty then
        if p.1.isEmpty && q.1.isEmpty then none
        else some ⟨mkSign sp.1 (digitsVal p.1 * 10 ^ q.1.length + digitsVal q.1), q.1.length⟩
      else none
    else none

/-- Big-endian digit characters of `n`, with explicit fuel (`fuel ≥ n`
suffices). -/
def natChars : Nat → Nat → List Char
  | 0, _ => []
  | f + 1, n => if n = 0 then [] else natChars f (n / 10) ++ [Nat.digitChar (n % 10)]

/-- Decimal digit string of a natural number, `"0"` included. -/
def natStr (n : Nat) : List Char := if n = 0 then ['0'] else natChars n n

/-- Strip trailing zero digits of the fraction: `str` prints the shortest
round-tripping decimal, which for a short literal is the literal without
trailing fractional zeros. -/
def normPF : Int → Nat → Int × Nat
  | n, 0 => (n, 0)
  | n, e + 1 => if n % 10 = 0 then normPF (n / 10) e else (n, e + 1)

/-- Model of Python `str(x)` for a float parsed from a short decimal
literal: sign, integer digits, a decimal point (a lone `0` after it when the
value is integral, as `str` prints `50.0`), and the fraction without its
trailing zeros. -/
def pyFloatToString (x : PyFloat) : String :=
  let me := normPF x.num x.exp
  let n := me.1.natAbs
  let ip := n / 10 ^ me.2
  let fp := n % 10 ^ me.2
  let fracChars : List Char :=
    if me.2 = 0 then ['0']
    else List.replicate (me.2 - (natStr fp).length) '0' ++ natStr fp
  let base := natStr ip ++ '.' :: fracChars
  String.mk (if me.1 < 0 then '-' :: base else base)

/-- Negation of the amount, as `amount_value = -amount_value` performs it. -/
def negPF (x : PyFloat) : PyFloat := ⟨-x.num, x.exp⟩

/-!
Column resolution (`main.py` lines 68–76 and 181–200).
-/

/-- Alipay status-column scan: first header cell containing `交易状态` wins
(the loop breaks), default index 3 when none matches. The source sets the
default before the loop; returning it when the scan is exhausted is the same
value. -/
def alipayStatusScan (idx : Nat) : List String → Nat
  | [] => 3
  | col :: rest => if pyIn "交易状态" col then idx else alipayStatusScan (idx + 1) rest

/-- Resolved Alipay `transaction_status_index`. -/
def alipayStatusIdx (header : List String) : Nat := alipayStatusScan 0 header

/-- The four column indices the WeChat pipeline resolves. -/
structure WxCols where
  time_index : Nat
  type_index : Nat
  amount_index : Nat
  status_index : Nat
deriving DecidableEq

/-- One iteration of the WeChat header scan: the source's if/elif chain,
each branch overwriting the running index. -/
def wxScanCell (idx : Nat) (cols : WxCols) (col : String) : WxCols :=
  if pyIn "交易时间" col then { cols with time_index := idx }
  else if pyIn "收/支" col then { cols with type_index := idx }
  else if pyIn "金额" col then { cols with amount_index := idx }
  else if pyIn "当前状态" col then { cols with status_index := idx }
  else cols

/-- WeChat header scan over `enumerate(header)`. -/
def weixinScan (idx : Nat) (cols : WxCols) : List String → WxCols
  | [] => cols
  | col :: rest => weixinScan (idx + 1) (wxScanCell idx cols col) rest

/-- Resolved WeChat columns, from the defaults `0, 5, 5, 7`. -/
def weixinResolve (header : List String) : WxCols :=
  weixinScan 0 ⟨0, 5, 5, 7⟩ header

/-!
Row processing (`main.py` lines 82–125 and 205–245).
-/

/-- Alipay row guard `not row or len(row) <= max(transaction_status_index, 5, 6)`. -/
def alipayTooShort (i : Nat) (row : List String) : Prop :=
  row = [] ∨ row.length ≤ Nat.max i (Nat.max 5 6)

instance (i : Nat) (row : List String) : Decidable (alipayTooShort i row) := by
  unfold alipayTooShort; infer_instance

/-- Cell access `row[5] if len(row) > 5 else ""`. -/
def alipayIncomeCell (row : List String) : String :=
  if 5 < row.length then row.getD 5 "" else ""

/-- Cell access `row[transaction_status_index] if len(row) > transaction_status_index else ""`. -/
def alipayStatusCell (i : Nat) (row : List String) : String :=
  if i < row.length then row.getD i "" else ""

/-- Cell access `row[6] if len(row) > 6 else "0"`. -/
def alipayAmountCell (row : List String) : String :=
  if 6 < row.length then row.getD 6 "" else "0"

/-- Outcome of the Alipay loop body for one row. -/
inductive ARow where
  | emit (rec : List String)
  | drop
  | nonExp
  | closed
deriving DecidableEq

/-- Body of the Alipay row loop. -/
def alipayStep (i : Nat) (row : List String) : ARow :=
  if alipayTooShort i row then .drop
  else
    match dateMatch (row.getD 0 "") with
    | none => .drop
    | some date =>
      let income_expense := alipayIncomeCell row
      if income_expense = "不计收支" then .nonExp
      else if alipayStatusCell i row = "交易关闭" then .closed
      else
        match pyFloatOfString (alipayAmountCell row) with
        | none => .drop
        | some amount_value =>
          let amount_value := if income_expense = "支出" then negPF amount_value else amount_value
          .emit ((row.set 0 date).set 6 (pyFloatToString amount_value))

/-- Alipay statistics. -/
structure AlipayStats where
  filtered_count : Nat
  non_expense_count : Nat
  closed_count : Nat
deriving DecidableEq

/-- One iteration of the Alipay row loop: append the record or bump the
matching counter. -/
def alipayLoopStep (i : Nat) (acc : List (List String) × AlipayStats) (row : List String) :
    List (List String) × AlipayStats :=
  match alipayStep i row with
  | .emit r => (acc.1 ++ [r], { acc.2 with filtered_count := acc.2.filtered_count + 1 })
  | .drop => acc
  | .nonExp => (acc.1, { acc.2 with non_expense_count := acc.2.non_expense_count + 1 })
  | .closed => (acc.1, { acc.2 with closed_count := acc.2.closed_count + 1 })

/-- The Alipay row loop: records in order of emission plus the three
counters. -/
def alipayLoop (i : Nat) (rows : List (List String)) : List (List String) × AlipayStats :=
  rows.foldl (alipayLoopStep i) ([], ⟨0, 0, 0⟩)

/-- WeChat row guard `not row or len(row) <= max(time, type, amount, status)`. -/
def wxTooShort (cols : WxCols) (row : List String) : Prop :=
  row = [] ∨ row.length ≤
    Nat.max cols.time_index (Nat.max cols.type_index (Nat.max cols.amount_index cols.status_index))

instance (cols : WxCols) (row : List String) : Decidable (wxTooShort cols row) := by
  unfold wxTooShort; infer_instance

/-- Cell access `row[status_index] if len(row) > status_index else ""`. -/
def wxStatusCell (cols : WxCols) (row : List String) : String :=
  if cols.status_index < row.length then row.getD cols.status_index "" else ""

/-- Cell access `row[type_index] if len(row) > type_index else ""`. -/
def wxTypeCell (cols : WxCols) (row : List String) : String :=
  if cols.type_index < row.length then row.getD cols.type_index "" else ""

/-- Cell access `row[amount_index] if len(row) > amount_index else "0"`. -/
def wxAmountCell (cols : WxCols) (row : List String) : String :=
  if cols.amount_index < row.length then row.getD cols.amount_index "" else "0"

/-- The amount string after `replace("¥", "").replace(",", "")`. -/
def wxAmountStr (cols : WxCols) (row : List String) : String :=
  pyReplaceChar ',' (pyReplaceChar '¥' (wxAmountCell cols row))

/-- Membership in the exclusion list `["已全额退款", "提现已到账", "对方已退还"]`. -/
def wxExcludedStatus (s : String) : Prop :=
  s = "已全额退款" ∨ s = "提现已到账" ∨ s = "对方已退还"

instance (s : String) : Decidable (wxExcludedStatus s) := by
  unfold wxExcludedStatus; infer_instance

/-- Outcome of the WeChat loop body for one row. -/
inductive WRow where
  | emit (rec : List String)
  | drop
  | excluded
deriving DecidableEq

/-- Body of the WeChat row loop. -/
def weixinStep (cols : WxCols) (row : List String) : WRow :=
  if wxTooShort cols row then .drop
  else
    match dateMatch (row.getD cols.time_index "") with
    | none => .drop
    | some date =>
      let status := wxStatusCell cols row
      if wxExcludedStatus status then .excluded
      else
        match pyFloatOfString (wxAmountStr cols row) with
        | none => .drop
        | some amount_value =>
          let amount_value :=
            if wxTypeCell cols row = "支出" then negPF amount_value else amount_value
          .emit ((row.set cols.time_index date).set cols.amount_index (pyFloatToString amount_value))

/-- WeChat statistics. -/
structure WeixinStats where
  filtered_count : Nat
  excluded_status_count : Nat
deriving DecidableEq

/-- One iteration of the WeChat row loop. -/
def weixinLoopStep (cols : WxCols) (acc : List (List String) × WeixinStats) (row : List String) :
    List (List String) × WeixinStats :=
  match weixinStep cols row with
  | .emit r => (acc.1 ++ [r], { acc.2 with filtered_count := acc.2.filtered_count + 1 })
  | .drop => acc
  | .excluded => (acc.1, { acc.2 with excluded_status_count := acc.2.excluded_status_count + 1 })

/-- The WeChat row loop. -/
def weixinLoop (cols : WxCols) (rows : List (List String)) : List (List String) × WeixinStats :=
  rows.foldl (weixinLoopStep cols) ([], ⟨0, 0⟩)

/-!
Whole pipelines (`main.py` lines 53–154 and 166–272). The pipelines receive
the rows the quote-aware reader produced from `lines[24:]` / `lines[16:]`;
`next(reader)` takes the header and raises `StopIteration` when the parsed
input is empty, which — like any other exception in the `try` block — the
boundary handler turns into a `None` result.
-/

/-- Result dictionary of `process_alipay_csv`. -/
structure AlipayResult where
  header : List String
  records : List (List String)
  stats : AlipayStats
deriving DecidableEq

/-- Result dictionary of `process_weixin_csv`. -/
structure WeixinResult where
  header : List String
  records : List (List String)
  stats : WeixinStats
deriving DecidableEq

/-- Body of the `try` block of `process_alipay_csv`, at row granularity. -/
def alipayBody (rows : List (List String)) : Except String AlipayResult :=
  match rows with
  | [] => .error "StopIteration"
  | header :: data =>
    let i := alipayStatusIdx header
    let p := alipayLoop i data
    .ok ⟨header, p.1, p.2⟩

/-- Pipeline `process_alipay_csv`: the `except Exception` boundary returns `None`. -/
def process_alipay_csv (rows : List (List String)) : Option AlipayResult :=
  match alipayBody rows with
  | .ok r => some r
  | .error _ => none

/-- Body of the `try` block of `process_weixin_csv`, at row granularity. -/
def weixinBody (rows : List (List String)) : Except String WeixinResult :=
  match rows with
  | [] => .error "StopIteration"
  | header :: data =>
    let cols := weixinResolve header
    let p := weixinLoop cols data
    .ok ⟨header, p.1, p.2⟩

/-- Pipeline `process_weixin_csv`: the `except Exception` boundary returns `None`. -/
def process_weixin_csv (rows : List (List String)) : Option WeixinResult :=
  match weixinBody rows with
  | .ok r => some r
  | .error _ => none

/-!
CSV output (`main.py` lines 138–143 and 257–262): `csv.writer` with
`quoting=csv.QUOTE_ALL` quotes every field, doubles embedded quotes and
terminates rows with CR LF; `csv.reader` is the standard quote-aware reader.
-/

/-- Double every quote character, as the writer escapes embedded quotes. -/
def dupQuotes : List Char → List Char
  | [] => []
  | c :: t => if c = '"' then '"' :: '"' :: dupQuotes t else c :: dupQuotes t

/-- One field under `QUOTE_ALL`: quotes around the escaped content. -/
def csvQuoteField (s : String) : List Char :=
  '"' :: (dupQuotes s.toList ++ ['"'])

/-- Join the quoted fields of a row with commas. -/
def joinComma : List (List Char) → List Char
  | [] => []
  | [f] => f
  | f :: g :: rest => f ++ ',' :: joinComma (g :: rest)

/-- One written row: quoted fields, comma separated, CR LF terminated. -/
def csvWriteRow (r : List String) : List Char :=
  joinComma (r.map csvQuoteField) ++ ['\r', '\n']

/-- The written file: `writerow(header)` then `writerows(records)` is the
concatenation of the written rows. -/
def csvWriteAll (rows : List (List String)) : String :=
  String.mk ((rows.map csvWriteRow).flatten)

/-- Quoted-field tail reader: content after an opening quote, `""` read as a
literal quote, up to the closing quote; `none` when the quote never closes. -/
def readQuoted : List Char → Option (List Char × List Char)
  | [] => none
  | c :: rest =>
    if c = '"' then
      match rest with
      | [] => some ([], [])
      | d :: rest2 =>
        if d = '"' then (readQuoted rest2).map (fun p => ('"' :: p.1, p.2))
        else some ([], d :: rest2)
    else (readQuoted rest).map (fun p => (c :: p.1, p.2))

/-- Unquoted field: characters up to a comma or a line end. -/
def readUnquoted : List Char → List Char × List Char
  | [] => ([], [])
  | c :: rest =>
    if c = ',' ∨ c = '\r' ∨ c = '\n' then ([], c :: rest)
    else
      let p := readUnquoted rest
      (c :: p.1, p.2)

/-- One field: quoted when it opens with a quote, else unquoted. -/
def readField (cs : List Char) : Option (List Char × List Char) :=
  match cs with
  | [] => some ([], [])
  | c :: rest => if c = '"' then readQuoted rest else some (readUnquoted (c :: rest))

/-- Fields of one row: the first field, then after each comma another field.
The fuel bounds the number of fields; every caller passes more fuel than the
input could hold, so it never runs out. -/
def readFieldsF : Nat → List Char → Option (List String × List Char)
  | 0, _ => none
  | fuel + 1, cs =>
    match readField cs with
    | none => none
    | some (f, rest) =>
      match rest with
      | ',' :: rest2 => (readFieldsF fuel rest2).map (fun p => (String.mk f :: p.1, p.2))
      | _ => some ([String.mk f], rest)

/-- Consume one CR LF pair. -/
def dropCRLF (cs : List Char) : Option (List Char) :=
  match cs with
  | a :: b :: rest => if a = '\r' ∧ b = '\n' then some rest else none
  | _ => none

/-- One row: a blank line is the empty row, otherwise the fields up to the
CR LF terminator (or the end of the input). -/
def readRow (cs : List Char) : Option (List String × List Char) :=
  match dropCRLF cs with
  | some rest => some ([], rest)
  | none =>
    match readFieldsF (cs.length + 1) cs with
    | none => none
    | some (fs, rest) =>
      if rest.isEmpty then some (fs, [])
      else
        match dropCRLF rest with
        | some rest2 => some (fs, rest2)
        | none => none

/-- All rows of the input; the fuel bounds the number of rows. -/
def readRowsF : Nat → List Char → Option (List (List String))
  | _, [] => some []
  | 0, _ :: _ => none
  | fuel + 1, c :: t =>
    match readRow (c :: t) with
    | none => none
    | some p => (readRowsF fuel p.2).map (fun rs => p.1 :: rs)

/-- The quote-aware comma-separated reader applied to a whole text. -/
def csvRead (s : String) : Option (List (List String)) :=
  readRowsF (s.toList.length + 1) s.toList

/-!
Encoding fallback (`main.py` lines 18–40). Reading the fixed input file under
an encoding either yields its lines or fails; `decode` abstracts that codec
behaviour, and `detected` is chardet's statistical guess — both external to
the script. The `try` around the first attempt catches any failure, and the
fallback loop tries each listed encoding in order.
-/

/-- The ordered fallback list of the source. -/
def fallback_encodings : List String := ["gbk", "gb18030", "cp936", "utf-8-sig", "utf-8"]

/-- The fallback loop: first encoding that decodes wins; when all fail, the
final `raise` tells the caller to convert the file by hand. -/
def tryEncodings (decode : String → Option (List String)) :
    List String → Except String (List String)
  | [] => .error "无法识别文件编码，请尝试手动转换文件编码为UTF-8"
  | enc :: rest =>
    match decode enc with
    | some lines => .ok lines
    | none => tryEncodings decode rest

/-- Decoder `read_file_with_encoding`: the detected encoding first, then the
fallback chain. -/
def read_file_with_encoding (decode : String → Option (List String)) (detected : String) :
    Except String (List String) :=
  match decode detected with
  | some lines => .ok lines
  | none => tryEncodings decode fallback_encodings

/-!
Helper lemmas: list access and digit arithmetic.
-/

/-!
Helper definitions used only in statements and proofs.
-/

/-- Fraction digit characters of `n % 10 ^ e`, zero padded to width `e`
(a lone `0` when `e = 0`). -/
def fracPart (n e : Nat) : List Char :=
  if e = 0 then ['0']
  else List.replicate (e - (natStr (n % 10 ^ e)).length) '0' ++ natStr (n % 10 ^ e)

/-- Unsigned decimal rendering of `n / 10 ^ e` point `fracPart`. -/
def renderBase (n e : Nat) : List Char :=
  natStr (n / 10 ^ e) ++ '.' :: fracPart n e

/-- Signed decimal rendering of the value `m / 10 ^ e`. -/
def renderPF (m : Int) (e : Nat) : List Char :=
  if m < 0 then '-' :: renderBase m.natAbs e else renderBase m.natAbs e

/-- Whether an Alipay row outcome emits a record. -/
def ARow.isEmit : ARow → Bool
  | .emit _ => true
  | _ => false

/-- Whether a WeChat row outcome emits a record. -/
def WRow.isEmit : WRow → Bool
  | .emit _ => true
  | _ => false

/-- A row the Alipay loop counts under `closed_count`: it passes the length
guard, its date parses, it is not `不计收支`, and its status cell reads
`交易关闭`. -/
def alipayClosedRow (i : Nat) (row : List String) : Prop :=
  ¬ alipayTooShort i row ∧ (dateMatch (row.getD 0 "")).isSome = true ∧
    alipayIncomeCell row ≠ "不计收支" ∧ alipayStatusCell i row = "交易关闭"

instance (i : Nat) (row : List String) : Decidable (alipayClosedRow i row) := by
  unfold alipayClosedRow; infer_instance

/-- A row the WeChat loop counts under `excluded_status_count`: it passes the
length guard, its date parses, and its status cell is in the exclusion list. -/
def wxExcludedRow (cols : WxCols) (row : List String) : Prop :=
  ¬ wxTooShort cols row ∧ (dateMatch (row.getD cols.time_index "")).isSome = true ∧
    wxExcludedStatus (wxStatusCell cols row)

instance (cols : WxCols) (row : List String) : Decidable (wxExcludedRow cols row) := by
  unfold wxExcludedRow; infer_instance

/-- The four if/elif branches of the WeChat header scan. -/
inductive WxPat where
  | time
  | typ
  | amount
  | status
deriving DecidableEq

/-- The branch of the if/elif chain a header cell triggers, when any: a cell
is attributed only to the first pattern it contains. -/
def wxFirstPat (col : String) : Option WxPat :=
  if pyIn "交易时间" col then some .time
  else if pyIn "收/支" col then some .typ
  else if pyIn "金额" col then some .amount
  else if pyIn "当前状态" col then some .status
  else none

/-- Index (counting from `idx`) of the last cell that triggers branch `p`. -/
def lastMatchFrom (p : WxPat) (idx : Nat) : List String → Option Nat
  | [] => none
  | col :: rest =>
    match lastMatchFrom p (idx + 1) rest with
    | some j => some j
    | none => if wxFirstPat col = some p then some idx else none

/-!
Helper lemmas.
-/

theorem getD_set_self {α : Type} (l : List α) (i : Nat) (x d : α) (h : i < l.length) :
    (l.set i x).getD i d = x := by
  induction l generalizing i with
  | nil => simp at h
  | cons a t ih =>
    cases i with
    | zero => rfl
    | succ j =>
      simp only [List.set_cons_succ, List.getD_cons_succ]
      exact ih j (by simpa using h)

theorem getD_set_other {α : Type} (l : List α) (i j : Nat) (x d : α) (h : i ≠ j) :
    (l.set i x).getD j d = l.getD j d := by
  induction l generalizing i j with
  | nil => simp [List.set]
  | cons a t ih =>
    cases i with
    | zero =>
      cases j with
      | zero => exact absurd rfl h
      | succ k => rfl
    | succ i' =>
      cases j with
      | zero => rfl
      | succ k =>
        simp only [List.set_cons_succ, List.getD_cons_succ]
        exact ih i' k (fun hh => h (by rw [hh]))

theorem digitVal_digitChar {d : Nat} (h : d < 10) : (Nat.digitChar d).toNat - 48 = d := by
  interval_cases d <;> rfl

theorem isDig_digitChar {d : Nat} (h : d < 10) : isDig (Nat.digitChar d) = true := by
  interval_cases d <;> rfl

theorem isDig_ne_chars {c : Char} (h : isDig c = true) :
    c ≠ '-' ∧ c ≠ '+' ∧ c ≠ '.' ∧ c ≠ '¥' ∧ c ≠ ',' ∧ c ≠ '"' ∧ c ≠ '\r' ∧ c ≠ '\n' := by
  have hb := of_decide_eq_true h
  refine ⟨?_, ?_, ?_, ?_, ?_, ?_, ?_, ?_⟩ <;>
    (intro hc; subst hc; revert hb; decide)

theorem toList_mk (l : List Char) : (String.mk l).toList = l := rfl

theorem digitsVal_nil : digitsVal [] = 0 := rfl

theorem digitsVal_append_singleton (xs : List Char) (c : Char) :
    digitsVal (xs ++ [c]) = (c.toNat - 48) + 10 * digitsVal xs := by
  simp [digitsVal, digitsValLE, List.reverse_append]

theorem natChars_val : ∀ (f n : Nat), n ≤ f → digitsVal (natChars f n) = n := by
  intro f
  induction f with
  | zero =>
    intro n hn
    interval_cases n
    rfl
  | succ f ih =>
    intro n hn
    by_cases h0 : n = 0
    · subst h0; simp [natChars, digitsVal_nil]
    · rw [natChars, if_neg h0, digitsVal_append_singleton]
      have hdiv : n / 10 ≤ f := by
        have : n / 10 < n := Nat.div_lt_self (Nat.pos_of_ne_zero h0) (by norm_num)
        omega
      rw [ih (n / 10) hdiv, digitVal_digitChar (Nat.mod_lt n (by norm_num))]
      omega

theorem natChars_digits : ∀ (f n : Nat) (c : Char), c ∈ natChars f n → isDig c = true := by
  intro f
  induction f with
  | zero => intro n c hc; simp [natChars] at hc
  | succ f ih =>
    intro n c hc
    by_cases h0 : n = 0
    · subst h0; simp [natChars] at hc
    · rw [natChars, if_neg h0] at hc
      rcases List.mem_append.mp hc with hm | hm
      · exact ih _ _ hm
      · have : c = Nat.digitChar (n % 10) := by simpa using hm
        subst this
        exact isDig_digitChar (Nat.mod_lt n (by norm_num))

theorem natChars_len : ∀ (f n k : Nat), n < 10 ^ k → (natChars f n).length ≤ k := by
  intro f
  induction f with
  | zero => intro n k _; simp [natChars]
  | succ f ih =>
    intro n k hk
    by_cases h0 : n = 0
    · subst h0; simp [natChars]
    · rw [natChars, if_neg h0]
      match k with
      | 0 => omega
      | k' + 1 =>
        have hdiv : n / 10 < 10 ^ k' := by
          rw [Nat.div_lt_iff_lt_mul (by norm_num)]
          calc n < 10 ^ (k' + 1) := hk
            _ = 10 ^ k' * 10 := by ring
        have := ih (n / 10) k' hdiv
        simp only [List.length_append, List.length_cons, List.length_nil]
        omega

theorem natStr_val (n : Nat) : digitsVal (natStr n) = n := by
  by_cases h0 : n = 0
  · subst h0; rfl
  · rw [natStr, if_neg h0]; exact natChars_val n n le_rfl

theorem natStr_digits (n : Nat) (c : Char) (hc : c ∈ natStr n) : isDig c = true := by
  by_cases h0 : n = 0
  · subst h0
    have : c = '0' := by simpa [natStr] using hc
    subst this; rfl
  · rw [natStr, if_neg h0] at hc
    exact natChars_digits n n c hc

theorem natStr_ne_nil (n : Nat) : natStr n ≠ [] := by
  match n with
  | 0 => simp [natStr]
  | n + 1 =>
    rw [natStr, if_neg (Nat.succ_ne_zero n), natChars, if_neg (Nat.succ_ne_zero n)]
    simp

theorem natStr_len (n k : Nat) (hn : n < 10 ^ k) (hk : 1 ≤ k) : (natStr n).length ≤ k := by
  by_cases h0 : n = 0
  · subst h0; simpa [natStr] using hk
  · rw [natStr, if_neg h0]; exact natChars_len n n k hn

theorem takeDigits_all : ∀ (ds rest : List Char), (∀ c ∈ ds, isDig c = true) →
    (∀ c t, rest = c :: t → isDig c = false) → takeDigits (ds ++ rest) = (ds, rest) := by
  intro ds
  induction ds with
  | nil =>
    intro rest _ hrest
    match rest with
    | [] => rfl
    | c :: t =>
      rw [List.nil_append, takeDigits, if_neg (by rw [hrest c t rfl]; exact Bool.false_ne_true)]
  | cons d ds ih =>
    intro rest hds hrest
    have hd : isDig d = true := hds d (List.mem_cons_self d ds)
    rw [List.cons_append, takeDigits, if_pos hd,
      ih rest (fun c hc => hds c (List.mem_cons_of_mem d hc)) hrest]

theorem digitsValLE_append_zeros (xs : List Char) (z : Nat) :
    digitsValLE (xs ++ List.replicate z '0') = digitsValLE xs := by
  induction xs with
  | nil =>
    simp only [List.nil_append]
    induction z with
    | zero => rfl
    | succ z ihz => simpa [List.replicate_succ, digitsValLE] using ihz
  | cons c t ih => simp [digitsValLE, ih]

theorem digitsVal_replicate_zero (z : Nat) (ds : List Char) :
    digitsVal (List.replicate z '0' ++ ds) = digitsVal ds := by
  rw [digitsVal, digitsVal, List.reverse_append, List.reverse_replicate,
    digitsValLE_append_zeros]

theorem normPF_val (e : Nat) (n : Int) :
    (((normPF n e).1 : ℚ)) / (10 : ℚ) ^ (normPF n e).2 = (n : ℚ) / (10 : ℚ) ^ e := by
  induction e generalizing n with
  | zero => rfl
  | succ e ih =>
    rw [normPF]
    by_cases h : n % 10 = 0
    · rw [if_pos h, ih]
      obtain ⟨k, hk⟩ := Int.dvd_of_emod_eq_zero h
      subst hk
      rw [Int.mul_ediv_cancel_left k (by norm_num)]
      push_cast
      rw [pow_succ]
      field_simp
      ring
    · rw [if_neg h]

theorem normPF_mod (e : Nat) (n : Int) (h : (normPF n e).2 ≠ 0) : (normPF n e).1 % 10 ≠ 0 := by
  induction e generalizing n with
  | zero => simp [normPF] at h
  | succ e ih =>
    rw [normPF] at h ⊢
    by_cases h10 : n % 10 = 0
    · rw [if_pos h10] at h ⊢; exact ih (n / 10) h
    · rw [if_neg h10]; exact h10

theorem stripSign_neg (t : List Char) : stripSign ('-' :: t) = (true, t) := by
  simp [stripSign]

theorem stripSign_digit {c : Char} (t : List Char) (h : isDig c = true) :
    stripSign (c :: t) = (false, c :: t) := by
  obtain ⟨h1, h2, -, -, -, -, -, -⟩ := isDig_ne_chars h
  simp [stripSign, h1, h2]

theorem natStr_isEmpty (n : Nat) : (natStr n).isEmpty = false := by
  match h : natStr n with
  | [] => exact absurd h (natStr_ne_nil n)
  | c :: t => rfl

theorem fracPart_digits (n e : Nat) (c : Char) (hc : c ∈ fracPart n e) : isDig c = true := by
  rw [fracPart] at hc
  split at hc
  · have : c = '0' := by simpa using hc
    subst this; rfl
  · rcases List.mem_append.mp hc with hm | hm
    · have : c = '0' := List.eq_of_mem_replicate hm
      subst this; rfl
    · exact natStr_digits _ _ hm

theorem fracPart_length (n e : Nat) : (fracPart n e).length = if e = 0 then 1 else e := by
  rw [fracPart]
  split
  · next h => rfl
  · next h =>
    have hlt : n % 10 ^ e < 10 ^ e := Nat.mod_lt _ (pow_pos (by norm_num) e)
    have hle := natStr_len _ e hlt (by omega)
    simp only [List.length_append, List.length_replicate]
    omega

theorem fracPart_val (n e : Nat) : digitsVal (fracPart n e) = if e = 0 then 0 else n % 10 ^ e := by
  rw [fracPart]
  split
  · next h => rfl
  · next h =>
    rw [digitsVal_replicate_zero, natStr_val]

theorem takeDigits_renderBase (n e : Nat) :
    takeDigits (renderBase n e) = (natStr (n / 10 ^ e), '.' :: fracPart n e) := by
  rw [renderBase]
  exact takeDigits_all _ _ (fun c hc => natStr_digits _ c hc)
    (by intro c t hh; injection hh with h1 _; subst h1; rfl)

theorem takeDigits_fracPart (n e : Nat) :
    takeDigits (fracPart n e) = (fracPart n e, []) := by
  have := takeDigits_all (fracPart n e) [] (fun c hc => fracPart_digits _ _ c hc)
    (by intro c t hh; exact absurd hh (by simp))
  simpa using this

theorem pyFloatOfString_renderPF (m : Int) (e : Nat) :
    pyFloatOfString (String.mk (renderPF m e)) =
      some ⟨mkSign (decide (m < 0))
          (digitsVal (natStr (m.natAbs / 10 ^ e)) * 10 ^ (fracPart m.natAbs e).length +
            digitsVal (fracPart m.natAbs e)),
        (fracPart m.natAbs e).length⟩ := by
  by_cases hm : m < 0
  · have hren : renderPF m e = '-' :: renderBase m.natAbs e := by rw [renderPF, if_pos hm]
    simp only [pyFloatOfString, toList_mk, hren, stripSign_neg, takeDigits_renderBase,
      takeDigits_fracPart, List.isEmpty_nil, natStr_isEmpty, Bool.false_and, if_pos rfl,
      Bool.false_eq_true, decide_eq_true hm]
    simp
  · have hren : renderPF m e = renderBase m.natAbs e := by rw [renderPF, if_neg hm]
    obtain ⟨c, t, hct⟩ := List.exists_cons_of_ne_nil (natStr_ne_nil (m.natAbs / 10 ^ e))
    have hcd : isDig c = true := natStr_digits _ c (by rw [hct]; exact List.mem_cons_self c t)
    have hsplit : renderBase m.natAbs e = c :: (t ++ '.' :: fracPart m.natAbs e) := by
      rw [renderBase, hct, List.cons_append]
    have hss : stripSign (renderPF m e) = (false, renderBase m.natAbs e) := by
      rw [hren, hsplit]
      exact stripSign_digit _ hcd
    simp only [pyFloatOfString, toList_mk, hss, takeDigits_renderBase,
      takeDigits_fracPart, List.isEmpty_nil, natStr_isEmpty, Bool.false_and, if_pos rfl,
      Bool.false_eq_true, decide_eq_false hm]
    simp

theorem pyFloatToString_eq (x : PyFloat) :
    pyFloatToString x =
      String.mk (renderPF (normPF x.num x.exp).1 (normPF x.num x.exp).2) := rfl

theorem mkSign_natAbs (m : Int) : mkSign (decide (m < 0)) m.natAbs = m := by
  by_cases hm : m < 0
  · rw [decide_eq_true hm]
    show -(m.natAbs : Int) = m
    omega
  · rw [decide_eq_false hm]
    show (m.natAbs : Int) = m
    omega

theorem mkSign_natAbs_ten (m : Int) : mkSign (decide (m < 0)) (m.natAbs * 10) = m * 10 := by
  by_cases hm : m < 0
  · rw [decide_eq_true hm]
    show -((m.natAbs * 10 : Nat) : Int) = m * 10
    omega
  · rw [decide_eq_false hm]
    show ((m.natAbs * 10 : Nat) : Int) = m * 10
    omega

theorem pyFloat_round_trip (x : PyFloat) :
    ∃ y : PyFloat, pyFloatOfString (pyFloatToString x) = some y ∧ y.val = x.val := by
  rw [pyFloatToString_eq, pyFloatOfString_renderPF]
  refine ⟨_, rfl, ?_⟩
  set m := (normPF x.num x.exp).1 with hm
  set e := (normPF x.num x.exp).2 with he
  have hval : (m : ℚ) / (10 : ℚ) ^ e = x.val := by
    rw [PyFloat.val]; exact normPF_val x.exp x.num
  rw [PyFloat.val]
  simp only [natStr_val, fracPart_val, fracPart_length]
  by_cases he0 : e = 0
  · rw [if_pos he0, if_pos he0, he0]
    simp only [pow_zero, Nat.div_one, pow_one, Nat.add_zero]
    rw [mkSign_natAbs_ten]
    rw [← hval, he0]
    push_cast
    field_simp
  · rw [if_neg he0, if_neg he0]
    rw [Nat.div_add_mod', mkSign_natAbs]
    exact hval

theorem negPF_val (x : PyFloat) : (negPF x).val = -x.val := by
  simp [negPF, PyFloat.val, neg_div]

theorem alipayStep_emit {i : Nat} {row rec : List String}
    (h : alipayStep i row = ARow.emit rec) :
    ∃ date v, ¬ alipayTooShort i row ∧
      dateMatch (row.getD 0 "") = some date ∧
      alipayIncomeCell row ≠ "不计收支" ∧
      alipayStatusCell i row ≠ "交易关闭" ∧
      pyFloatOfString (alipayAmountCell row) = some v ∧
      rec = (row.set 0 date).set 6
        (pyFloatToString (if alipayIncomeCell row = "支出" then negPF v else v)) := by
  simp only [alipayStep] at h
  by_cases hts : alipayTooShort i row
  · rw [if_pos hts] at h; exact absurd h (by simp)
  rw [if_neg hts] at h
  match hd : dateMatch (row.getD 0 "") with
  | none => rw [hd] at h; exact absurd h (by simp)
  | some date =>
    rw [hd] at h
    simp only [] at h
    by_cases hie : alipayIncomeCell row = "不计收支"
    · rw [if_pos hie] at h; exact absurd h (by simp)
    rw [if_neg hie] at h
    by_cases hst : alipayStatusCell i row = "交易关闭"
    · rw [if_pos hst] at h; exact absurd h (by simp)
    rw [if_neg hst] at h
    match hv : pyFloatOfString (alipayAmountCell row) with
    | none => rw [hv] at h; exact absurd h (by simp)
    | some v =>
      rw [hv] at h
      simp only [] at h
      injection h with h1
      exact ⟨date, v, hts, rfl, hie, hst, rfl, h1.symm⟩

theorem weixinStep_emit {cols : WxCols} {row rec : List String}
    (h : weixinStep cols row = WRow.emit rec) :
    ∃ date v, ¬ wxTooShort cols row ∧
      dateMatch (row.getD cols.time_index "") = some date ∧
      ¬ wxExcludedStatus (wxStatusCell cols row) ∧
      pyFloatOfString (wxAmountStr cols row) = some v ∧
      rec = (row.set cols.time_index date).set cols.amount_index
        (pyFloatToString (if wxTypeCell cols row = "支出" then negPF v else v)) := by
  simp only [weixinStep] at h
  by_cases hts : wxTooShort cols row
  · rw [if_pos hts] at h; exact absurd h (by simp)
  rw [if_neg hts] at h
  match hd : dateMatch (row.getD cols.time_index "") with
  | none => rw [hd] at h; exact absurd h (by simp)
  | some date =>
    rw [hd] at h
    simp only [] at h
    by_cases hst : wxExcludedStatus (wxStatusCell cols row)
    · rw [if_pos hst] at h; exact absurd h (by simp)
    rw [if_neg hst] at h
    match hv : pyFloatOfString (wxAmountStr cols row) with
    | none => rw [hv] at h; exact absurd h (by simp)
    | some v =>
      rw [hv] at h
      simp only [] at h
      injection h with h1
      exact ⟨date, v, hts, rfl, hst, rfl, h1.symm⟩

theorem alipay_not_tooShort {i : Nat} {row : List String} (h : ¬ alipayTooShort i row) :
    0 < row.length ∧ 5 < row.length ∧ 6 < row.length ∧ i < row.length := by
  rw [alipayTooShort] at h
  push_neg at h
  obtain ⟨hi, h56⟩ := Nat.max_lt.mp h.2
  have h6 : (6 : Nat) < row.length := by
    have : Nat.max 5 6 = 6 := rfl
    omega
  omega

theorem wx_not_tooShort {cols : WxCols} {row : List String} (h : ¬ wxTooShort cols row) :
    cols.time_index < row.length ∧ cols.type_index < row.length ∧
      cols.amount_index < row.length ∧ cols.status_index < row.length := by
  rw [wxTooShort] at h
  push_neg at h
  obtain ⟨ht, h1⟩ := Nat.max_lt.mp h.2
  obtain ⟨hty, h2⟩ := Nat.max_lt.mp h1
  obtain ⟨ha, hs⟩ := Nat.max_lt.mp h2
  exact ⟨ht, hty, ha, hs⟩

theorem alipayStep_closed_iff (i : Nat) (row : List String) :
    alipayStep i row = ARow.closed ↔ alipayClosedRow i row := by
  rw [alipayClosedRow]
  simp only [alipayStep]
  by_cases hts : alipayTooShort i row
  · rw [if_pos hts]
    simp [hts]
  rw [if_neg hts]
  match hd : dateMatch (row.getD 0 "") with
  | none =>
    simp [hts, hd]
  | some date =>
    simp only []
    by_cases hie : alipayIncomeCell row = "不计收支"
    · rw [if_pos hie]; simp [hts, hd, hie]
    rw [if_neg hie]
    by_cases hst : alipayStatusCell i row = "交易关闭"
    · rw [if_pos hst]; simp [hts, hd, hie, hst]
    rw [if_neg hst]
    match hv : pyFloatOfString (alipayAmountCell row) with
    | none => simp [hts, hd, hie, hst]
    | some v => simp [hts, hd, hie, hst]

theorem weixinStep_excluded_iff (cols : WxCols) (row : List String) :
    weixinStep cols row = WRow.excluded ↔ wxExcludedRow cols row := by
  rw [wxExcludedRow]
  simp only [weixinStep]
  by_cases hts : wxTooShort cols row
  · rw [if_pos hts]
    simp [hts]
  rw [if_neg hts]
  match hd : dateMatch (row.getD cols.time_index "") with
  | none =>
    simp [hts, hd]
  | some date =>
    simp only []
    by_cases hst : wxExcludedStatus (wxStatusCell cols row)
    · rw [if_pos hst]; simp [hts, hd, hst]
    rw [if_neg hst]
    match hv : pyFloatOfString (wxAmountStr cols row) with
    | none => simp [hts, hd, hst]
    | some v => simp [hts, hd, hst]

theorem alipayFold_closed_count (i : Nat) (rows : List (List String))
    (acc : List (List String) × AlipayStats) :
    (rows.foldl (alipayLoopStep i) acc).2.closed_count =
      acc.2.closed_count + rows.countP (fun row => decide (alipayClosedRow i row)) := by
  induction rows generalizing acc with
  | nil => simp
  | cons row rest ih =>
    rw [List.foldl_cons, List.countP_cons, ih]
    have hcc : ∀ b : ARow, alipayStep i row = b →
        (alipayLoopStep i acc row).2.closed_count =
          acc.2.closed_count + (if decide (alipayClosedRow i row) = true then 1 else 0) := by
      intro b hb
      match b, hb with
      | .emit r, hb =>
        have hnc : ¬ alipayClosedRow i row := by
          intro hc
          have := (alipayStep_closed_iff i row).mpr hc
          rw [hb] at this
          exact absurd this (by simp)
        rw [alipayLoopStep, hb]
        simp [hnc]
      | .drop, hb =>
        have hnc : ¬ alipayClosedRow i row := by
          intro hc
          have := (alipayStep_closed_iff i row).mpr hc
          rw [hb] at this
          exact absurd this (by simp)
        rw [alipayLoopStep, hb]
        simp [hnc]
      | .nonExp, hb =>
        have hnc : ¬ alipayClosedRow i row := by
          intro hc
          have := (alipayStep_closed_iff i row).mpr hc
          rw [hb] at this
          exact absurd this (by simp)
        rw [alipayLoopStep, hb]
        simp [hnc]
      | .closed, hb =>
        have hc : alipayClosedRow i row := (alipayStep_closed_iff i row).mp hb
        rw [alipayLoopStep, hb]
        simp [hc]
    rw [hcc (alipayStep i row) rfl]
    omega

theorem weixinFold_excluded_count (cols : WxCols) (rows : List (List String))
    (acc : List (List String) × WeixinStats) :
    (rows.foldl (weixinLoopStep cols) acc).2.excluded_status_count =
      acc.2.excluded_status_count + rows.countP (fun row => decide (wxExcludedRow cols row)) := by
  induction rows generalizing acc with
  | nil => simp
  | cons row rest ih =>
    rw [List.foldl_cons, List.countP_cons, ih]
    have hcc : ∀ b : WRow, weixinStep cols row = b →
        (weixinLoopStep cols acc row).2.excluded_status_count =
          acc.2.excluded_status_count + (if decide (wxExcludedRow cols row) = true then 1 else 0) := by
      intro b hb
      match b, hb with
      | .emit r, hb =>
        have hnc : ¬ wxExcludedRow cols row := by
          intro hc
          have := (weixinStep_excluded_iff cols row).mpr hc
          rw [hb] at this
          exact absurd this (by simp)
        rw [weixinLoopStep, hb]
        simp [hnc]
      | .drop, hb =>
        have hnc : ¬ wxExcludedRow cols row := by
          intro hc
          have := (weixinStep_excluded_iff cols row).mpr hc
          rw [hb] at this
          exact absurd this (by simp)
        rw [weixinLoopStep, hb]
        simp [hnc]
      | .excluded, hb =>
        have hc : wxExcludedRow cols row := (weixinStep_excluded_iff cols row).mp hb
        rw [weixinLoopStep, hb]
        simp [hc]
    rw [hcc (weixinStep cols row) rfl]
    omega

theorem wxScanCell_eq (idx : Nat) (cols : WxCols) (col : String) :
    wxScanCell idx cols col =
      match wxFirstPat col with
      | some .time => { cols with time_index := idx }
      | some .typ => { cols with type_index := idx }
      | some .amount => { cols with amount_index := idx }
      | some .status => { cols with status_index := idx }
      | none => cols := by
  rw [wxScanCell, wxFirstPat]
  by_cases h1 : pyIn "交易时间" col = true
  · simp [h1]
  · by_cases h2 : pyIn "收/支" col = true
    · simp [h1, h2]
    · by_cases h3 : pyIn "金额" col = true
      · simp [h1, h2, h3]
      · by_cases h4 : pyIn "当前状态" col = true
        · simp [h1, h2, h3, h4]
        · simp [h1, h2, h3, h4]

theorem weixinScan_time (l : List String) : ∀ (idx : Nat) (cols : WxCols),
    (weixinScan idx cols l).time_index =
      (lastMatchFrom WxPat.time idx l).getD cols.time_index := by
  induction l with
  | nil => intro idx cols; rfl
  | cons col rest ih =>
    intro idx cols
    rw [weixinScan, lastMatchFrom, ih, wxScanCell_eq]
    match hl : lastMatchFrom WxPat.time (idx + 1) rest with
    | some j => simp
    | none =>
      simp only []
      match hp : wxFirstPat col with
      | some .time => simp
      | some .typ => simp
      | some .amount => simp
      | some .status => simp
      | none => simp

theorem weixinScan_typ (l : List String) : ∀ (idx : Nat) (cols : WxCols),
    (weixinScan idx cols l).type_index =
      (lastMatchFrom WxPat.typ idx l).getD cols.type_index := by
  induction l with
  | nil => intro idx cols; rfl
  | cons col rest ih =>
    intro idx cols
    rw [weixinScan, lastMatchFrom, ih, wxScanCell_eq]
    match hl : lastMatchFrom WxPat.typ (idx + 1) rest with
    | some j => simp
    | none =>
      simp only []
      match hp : wxFirstPat col with
      | some .time => simp
      | some .typ => simp
      | some .amount => simp
      | some .status => simp
      | none => simp

theorem weixinScan_amount (l : List String) : ∀ (idx : Nat) (cols : WxCols),
    (weixinScan idx cols l).amount_index =
      (lastMatchFrom WxPat.amount idx l).getD cols.amount_index := by
  induction l with
  | nil => intro idx cols; rfl
  | cons col rest ih =>
    intro idx cols
    rw [weixinScan, lastMatchFrom, ih, wxScanCell_eq]
    match hl : lastMatchFrom WxPat.amount (idx + 1) rest with
    | some j => simp
    | none =>
      simp only []
      match hp : wxFirstPat col with
      | some .time => simp
      | some .typ => simp
      | some .amount => simp
      | some .status => simp
      | none => simp

theorem weixinScan_status (l : List String) : ∀ (idx : Nat) (cols : WxCols),
    (weixinScan idx cols l).status_index =
      (lastMatchFrom WxPat.status idx l).getD cols.status_index := by
  induction l with
  | nil => intro idx cols; rfl
  | cons col rest ih =>
    intro idx cols
    rw [weixinScan, lastMatchFrom, ih, wxScanCell_eq]
    match hl : lastMatchFrom WxPat.status (idx + 1) rest with
    | some j => simp
    | none =>
      simp only []
      match hp : wxFirstPat col with
      | some .time => simp
      | some .typ => simp
      | some .amount => simp
      | some .status => simp
      | none => simp

theorem alipayStatusScan_none (l : List String) : ∀ idx : Nat,
    (∀ col ∈ l, pyIn "交易状态" col = false) → alipayStatusScan idx l = 3 := by
  induction l with
  | nil => intro idx _; rfl
  | cons col rest ih =>
    intro idx h
    rw [alipayStatusScan, if_neg (by rw [h col (List.mem_cons_self col rest)]; simp), ih]
    intro c hc
    exact h c (List.mem_cons_of_mem col hc)

theorem alipayStatusScan_found (l : List String) : ∀ idx : Nat,
    (∃ col ∈ l, pyIn "交易状态" col = true) →
      idx ≤ alipayStatusScan idx l ∧ alipayStatusScan idx l - idx < l.length ∧
        pyIn "交易状态" (l.getD (alipayStatusScan idx l - idx) "") = true ∧
        ∀ k, k < alipayStatusScan idx l - idx → pyIn "交易状态" (l.getD k "") = false := by
  induction l with
  | nil => intro idx h; simp at h
  | cons col rest ih =>
    intro idx h
    by_cases hc : pyIn "交易状态" col = true
    · rw [alipayStatusScan, if_pos hc]
      refine ⟨le_rfl, by simp, by simpa using hc, ?_⟩
      intro k hk
      exact absurd hk (by omega)
    · rw [alipayStatusScan, if_neg hc]
      have hex : ∃ c ∈ rest, pyIn "交易状态" c = true := by
        rcases h with ⟨c, hm, hp⟩
        rcases List.mem_cons.mp hm with rfl | hm
        · exact absurd hp hc
        · exact ⟨c, hm, hp⟩
      obtain ⟨h1, h2, h3, h4⟩ := ih (idx + 1) hex
      refine ⟨by omega, by simp; omega, ?_, ?_⟩
      · have hk : alipayStatusScan (idx + 1) rest - idx =
            (alipayStatusScan (idx + 1) rest - (idx + 1)) + 1 := by omega
        rw [hk, List.getD_cons_succ]
        exact h3
      · intro k hk
        match k with
        | 0 =>
          rw [List.getD_cons_zero]
          cases hpc : pyIn "交易状态" col with
          | true => exact absurd hpc hc
          | false => rfl
        | k' + 1 =>
          rw [List.getD_cons_succ]
          exact h4 k' (by omega)

theorem lastMatchFrom_none (p : WxPat) (l : List String) : ∀ idx : Nat,
    lastMatchFrom p idx l = none ↔ ∀ col ∈ l, wxFirstPat col ≠ some p := by
  induction l with
  | nil => intro idx; simp [lastMatchFrom]
  | cons col rest ih =>
    intro idx
    rw [lastMatchFrom]
    match hr : lastMatchFrom p (idx + 1) rest with
    | some j =>
      simp only []
      constructor
      · intro hh; exact absurd hh (by simp)
      · intro hall
        have : lastMatchFrom p (idx + 1) rest = none :=
          (ih (idx + 1)).mpr (fun c hc => hall c (List.mem_cons_of_mem col hc))
        rw [hr] at this
        exact absurd this (by simp)
    | none =>
      simp only []
      by_cases hp : wxFirstPat col = some p
      · rw [if_pos hp]
        constructor
        · intro hh; exact absurd hh (by simp)
        · intro hall; exact absurd hp (hall col (List.mem_cons_self col rest))
      · rw [if_neg hp]
        constructor
        · intro _ c hc
          rcases List.mem_cons.mp hc with rfl | hm
          · exact hp
          · exact ((ih (idx + 1)).mp hr) c hm
        · intro _; rfl

theorem lastMatchFrom_some (p : WxPat) (l : List String) : ∀ (idx j : Nat),
    lastMatchFrom p idx l = some j →
      idx ≤ j ∧ j - idx < l.length ∧ wxFirstPat (l.getD (j - idx) "") = some p ∧
        ∀ k, j - idx < k → k < l.length → wxFirstPat (l.getD k "") ≠ some p := by
  induction l with
  | nil => intro idx j h; exact absurd h (by simp [lastMatchFrom])
  | cons col rest ih =>
    intro idx j h
    rw [lastMatchFrom] at h
    match hr : lastMatchFrom p (idx + 1) rest with
    | some j' =>
      rw [hr] at h
      simp only [Option.some.injEq] at h
      subst h
      obtain ⟨h1, h2, h3, h4⟩ := ih (idx + 1) j' hr
      refine ⟨by omega, by simp; omega, ?_, ?_⟩
      · have hk : j' - idx = (j' - (idx + 1)) + 1 := by omega
        rw [hk, List.getD_cons_succ]
        exact h3
      · intro k hk1 hk2
        have hkpos : 1 ≤ k := by omega
        have hk : k = (k - 1) + 1 := by omega
        rw [hk, List.getD_cons_succ]
        have hk2' : k < rest.length + 1 := by simpa using hk2
        exact h4 (k - 1) (by omega) (by omega)
    | none =>
      rw [hr] at h
      simp only [] at h
      by_cases hp : wxFirstPat col = some p
      · rw [if_pos hp] at h
        simp only [Option.some.injEq] at h
        subst h
        refine ⟨le_rfl, by simp, by simpa using hp, ?_⟩
        intro k hk1 hk2
        have hkpos : 1 ≤ k := by omega
        have hk : k = (k - 1) + 1 := by omega
        rw [hk, List.getD_cons_succ]
        have hk2' : k - 1 < rest.length := by
          have : k < rest.length + 1 := by simpa using hk2
          omega
        have hmem : rest.getD (k - 1) "" ∈ rest := by
          rw [List.getD_eq_getElem _ _ hk2']
          exact List.getElem_mem hk2'
        exact ((lastMatchFrom_none p rest (idx + 1)).mp hr) _ hmem
      · rw [if_neg hp] at h
        exact absurd h (by simp)

theorem mk_toList (s : String) : String.mk s.toList = s := rfl

theorem readQuoted_dupQuotes (f : List Char) : ∀ rest : List Char,
    (∀ t, rest ≠ '"' :: t) →
    readQuoted (dupQuotes f ++ '"' :: rest) = some (f, rest) := by
  induction f with
  | nil =>
    intro rest hrest
    rw [dupQuotes, List.nil_append]
    match rest, hrest with
    | [], _ => rfl
    | d :: t, hrest =>
      have hd : ¬ d = '"' := fun hh => hrest t (by rw [hh])
      simp [readQuoted, hd]
  | cons c f ih =>
    intro rest hrest
    rw [dupQuotes]
    by_cases hc : c = '"'
    · rw [if_pos hc]
      subst hc
      rw [List.cons_append, List.cons_append]
      have huf : readQuoted ('"' :: '"' :: (dupQuotes f ++ '"' :: rest)) =
          (readQuoted (dupQuotes f ++ '"' :: rest)).map (fun p => ('"' :: p.1, p.2)) := rfl
      rw [huf, ih rest hrest]
      rfl
    · rw [if_neg hc, List.cons_append]
      have huf : readQuoted (c :: (dupQuotes f ++ '"' :: rest)) =
          (readQuoted (dupQuotes f ++ '"' :: rest)).map (fun p => (c :: p.1, p.2)) := by
        rw [readQuoted.eq_def]
        simp [hc]
      rw [huf, ih rest hrest]
      rfl

theorem readField_quote_head (x : List Char) : readField ('"' :: x) = readQuoted x := by
  rw [readField]
  simp

theorem readField_quoted (s : String) (rest : List Char) (hrest : ∀ t, rest ≠ '"' :: t) :
    readField (csvQuoteField s ++ rest) = some (s.toList, rest) := by
  rw [csvQuoteField, List.cons_append, readField_quote_head, List.append_assoc,
    List.singleton_append]
  exact readQuoted_dupQuotes s.toList rest hrest

theorem joinComma_cons (x : List Char) (l : List (List Char)) :
    joinComma (x :: l) =
      x ++ (match l with | [] => [] | y :: l' => ',' :: joinComma (y :: l')) := by
  match l with
  | [] => simp [joinComma]
  | y :: l' => rfl

theorem csvQuoteField_length (s : String) : 2 ≤ (csvQuoteField s).length := by
  rw [csvQuoteField]
  simp

theorem joinComma_quote_length (r : List String) :
    r.length ≤ (joinComma (r.map csvQuoteField)).length := by
  induction r with
  | nil => simp [joinComma]
  | cons f rtail ih =>
    rw [List.map_cons, joinComma_cons]
    have hq := csvQuoteField_length f
    match rtail with
    | [] => simpa using by omega
    | g :: t =>
      simp only [List.length_append, List.length_cons, List.map_cons] at ih ⊢
      omega

theorem readFieldsF_row (r : List String) (rest : List Char) (hne : r ≠ [])
    (hrest_head : ∀ t, rest ≠ '"' :: t) (hrest_comma : ∀ t, rest ≠ ',' :: t) :
    ∀ fuel, r.length ≤ fuel →
      readFieldsF fuel (joinComma (r.map csvQuoteField) ++ rest) = some (r, rest) := by
  induction r with
  | nil => exact absurd rfl hne
  | cons f rtail ih =>
    intro fuel hfuel
    match fuel, hfuel with
    | fuel + 1, hfuel =>
      match rtail with
      | [] =>
        rw [List.map_cons, List.map_nil, joinComma, readFieldsF,
          readField_quoted f rest hrest_head]
        match rest, hrest_comma with
        | [], _ => rfl
        | d :: t, hrest_comma =>
          have hd : ¬ d = ',' := fun hh => hrest_comma t (by rw [hh])
          simp only []
          rfl
      | g :: t =>
        simp only [List.map_cons]
        rw [joinComma_cons]
        simp only []
        rw [List.append_assoc, List.cons_append, readFieldsF,
          readField_quoted f
            (',' :: (joinComma (csvQuoteField g :: List.map csvQuoteField t) ++ rest))
            (fun u hh => by injection hh with h1 _; exact absurd h1 (by decide))]
        simp only [← List.map_cons]
        rw [ih (by simp) fuel (by simp only [List.length_cons] at hfuel ⊢; omega)]
        rfl

theorem dropCRLF_quote (x : List Char) : dropCRLF ('"' :: x) = none := by
  match x with
  | [] => rfl
  | b :: t => simp [dropCRLF]

theorem readRow_write (r : List String) (tail : List Char) :
    readRow (csvWriteRow r ++ tail) = some (r, tail) := by
  match r with
  | [] =>
    rw [show csvWriteRow [] = ['\r', '\n'] from rfl, readRow]
    rw [show dropCRLF (['\r', '\n'] ++ tail) = some tail by simp [dropCRLF]]
  | f :: rtail =>
    have hw0 : csvWriteRow (f :: rtail) ++ tail =
        joinComma ((f :: rtail).map csvQuoteField) ++ ('\r' :: '\n' :: tail) := by
      rw [csvWriteRow, List.append_assoc]
      rfl
    obtain ⟨y, hy⟩ : ∃ y, joinComma ((f :: rtail).map csvQuoteField) = '"' :: y := by
      rw [List.map_cons, joinComma_cons, csvQuoteField]
      exact ⟨_, List.cons_append _ _ _⟩
    rw [readRow]
    rw [show dropCRLF (csvWriteRow (f :: rtail) ++ tail) = none by
      rw [hw0, hy, List.cons_append, dropCRLF_quote]]
    simp only []
    rw [hw0, readFieldsF_row (f :: rtail) ('\r' :: '\n' :: tail) (by simp)
      (fun u hh => by injection hh with h1 _; exact absurd h1 (by decide))
      (fun u hh => by injection hh with h1 _; exact absurd h1 (by decide))
      _ (by
        have := joinComma_quote_length (f :: rtail)
        simp only [List.length_append]
        omega)]
    simp [dropCRLF]

theorem csvWriteRow_ne_nil (r : List String) : csvWriteRow r ≠ [] := by
  rw [csvWriteRow]
  simp

theorem readRowsF_write (rows : List (List String)) : ∀ fuel, rows.length ≤ fuel →
    readRowsF fuel ((rows.map csvWriteRow).flatten) = some rows := by
  induction rows with
  | nil =>
    intro fuel _
    match fuel with
    | 0 => rfl
    | fuel + 1 => rfl
  | cons r rows ih =>
    intro fuel hf
    match fuel, hf with
    | fuel + 1, hf =>
      rw [List.map_cons, List.flatten_cons]
      obtain ⟨c, t, hct⟩ := List.exists_cons_of_ne_nil (csvWriteRow_ne_nil r)
      rw [hct, List.cons_append, readRowsF]
      rw [← List.cons_append, ← hct, readRow_write]
      simp only []
      rw [ih fuel (by simp only [List.length_cons] at hf; omega)]
      rfl

theorem csvWriteRow_two_le (r : List String) : 2 ≤ (csvWriteRow r).length := by
  rw [csvWriteRow]
  simp

theorem rows_le_flatten_length (rows : List (List String)) :
    rows.length ≤ ((rows.map csvWriteRow).flatten).length := by
  induction rows with
  | nil => simp
  | cons r rows ih =>
    rw [List.map_cons, List.flatten_cons]
    have := csvWriteRow_two_le r
    simp only [List.length_append, List.length_cons]
    omega

theorem csvRead_write (rows : List (List String)) :
    csvRead (csvWriteAll rows) = some rows := by
  rw [csvRead, csvWriteAll, toList_mk]
  exact readRowsF_write rows _ (by have := rows_le_flatten_length rows; omega)

theorem dateMatch_inv {s d : String} (h : dateMatch s = some d) :
    ∃ y1 y2 y3 y4 m1 m2 d1 d2 rest,
      s.toList = y1 :: y2 :: y3 :: y4 :: '-' :: m1 :: m2 :: '-' :: d1 :: d2 :: rest ∧
      isDig y1 = true ∧ isDig y2 = true ∧ isDig y3 = true ∧ isDig y4 = true ∧
      isDig m1 = true ∧ isDig m2 = true ∧ isDig d1 = true ∧ isDig d2 = true ∧
      d = String.mk [y1, y2, y3, y4, '-', m1, m2, '-', d1, d2] := by
  rw [dateMatch] at h
  split at h
  · next y1 y2 y3 y4 h1 m1 m2 h2 d1 d2 rest heq =>
    split at h
    · next hcond =>
      simp only [Bool.and_eq_true, decide_eq_true_eq, and_assoc] at hcond
      obtain ⟨hy1, hy2, hy3, hy4, hh1, hm1, hm2, hh2, hd1, hd2⟩ := hcond
      subst hh1
      subst hh2
      cases h
      exact ⟨y1, y2, y3, y4, m1, m2, d1, d2, rest, heq, hy1, hy2, hy3, hy4,
        hm1, hm2, hd1, hd2, rfl⟩
    · exact absurd h (by simp)
  · exact absurd h (by simp)

theorem dateMatch_take {s d : String} (h : dateMatch s = some d) :
    d.toList = s.toList.take 10 := by
  obtain ⟨y1, y2, y3, y4, m1, m2, d1, d2, rest, heq, -, -, -, -, -, -, -, -, hd⟩ :=
    dateMatch_inv h
  rw [heq, hd]
  rfl

theorem filter_cons_of_pos_chain {p : Char → Bool} {c : Char} {l : List Char}
    (hc : p c = true) : (c :: l).filter p = c :: l.filter p := by
  simp [List.filter_cons, hc]

theorem pyFloatOfString_dateLead {s d : String} (h : dateMatch s = some d) :
    pyFloatOfString (pyReplaceChar ',' (pyReplaceChar '¥' s)) = none := by
  obtain ⟨y1, y2, y3, y4, m1, m2, d1, d2, rest, heq, hy1, hy2, hy3, hy4, -, -, -, -, -⟩ :=
    dateMatch_inv h
  have hy1' := isDig_ne_chars hy1
  have hy2' := isDig_ne_chars hy2
  have hy3' := isDig_ne_chars hy3
  have hy4' := isDig_ne_chars hy4
  obtain ⟨X, hstr⟩ : ∃ X, (pyReplaceChar ',' (pyReplaceChar '¥' s)).toList =
      y1 :: y2 :: y3 :: y4 :: '-' :: X := by
    rw [pyReplaceChar, pyReplaceChar, toList_mk, toList_mk, heq]
    have h1 : List.filter (fun a => decide (a ≠ '¥'))
        ([y1, y2, y3, y4, '-'] ++ (m1 :: m2 :: '-' :: d1 :: d2 :: rest)) =
        [y1, y2, y3, y4, '-'] ++
          List.filter (fun a => decide (a ≠ '¥')) (m1 :: m2 :: '-' :: d1 :: d2 :: rest) := by
      rw [List.filter_append]
      congr 1
      rw [List.filter_eq_self]
      intro a ha
      simp only [List.mem_cons, List.not_mem_nil, or_false] at ha
      rcases ha with rfl | rfl | rfl | rfl | rfl
      · exact decide_eq_true hy1'.2.2.2.1
      · exact decide_eq_true hy2'.2.2.2.1
      · exact decide_eq_true hy3'.2.2.2.1
      · exact decide_eq_true hy4'.2.2.2.1
      · decide
    have h2 : List.filter (fun a => decide (a ≠ ','))
        ([y1, y2, y3, y4, '-'] ++
          List.filter (fun a => decide (a ≠ '¥')) (m1 :: m2 :: '-' :: d1 :: d2 :: rest)) =
        [y1, y2, y3, y4, '-'] ++
          List.filter (fun a => decide (a ≠ ','))
            (List.filter (fun a => decide (a ≠ '¥')) (m1 :: m2 :: '-' :: d1 :: d2 :: rest)) := by
      rw [List.filter_append]
      congr 1
      rw [List.filter_eq_self]
      intro a ha
      simp only [List.mem_cons, List.not_mem_nil, or_false] at ha
      rcases ha with rfl | rfl | rfl | rfl | rfl
      · exact decide_eq_true hy1'.2.2.2.2.1
      · exact decide_eq_true hy2'.2.2.2.2.1
      · exact decide_eq_true hy3'.2.2.2.2.1
      · exact decide_eq_true hy4'.2.2.2.2.1
      · decide
    refine ⟨List.filter (fun a => decide (a ≠ ','))
        (List.filter (fun a => decide (a ≠ '¥')) (m1 :: m2 :: '-' :: d1 :: d2 :: rest)), ?_⟩
    rw [show (y1 :: y2 :: y3 :: y4 :: '-' :: m1 :: m2 :: '-' :: d1 :: d2 :: rest)
        = [y1, y2, y3, y4, '-'] ++ (m1 :: m2 :: '-' :: d1 :: d2 :: rest) from rfl, h1, h2]
    rfl
  have htd : takeDigits (y1 :: y2 :: y3 :: y4 :: '-' :: X) = ([y1, y2, y3, y4], '-' :: X) := by
    have := takeDigits_all [y1, y2, y3, y4] ('-' :: X)
      (by
        intro c hc
        simp only [List.mem_cons, List.not_mem_nil, or_false] at hc
        rcases hc with rfl | rfl | rfl | rfl <;> assumption)
      (by
        intro c t hh
        injection hh with h1 _
        rw [← h1]
        rfl)
    exact this
  simp only [pyFloatOfString, hstr, stripSign_digit _ hy1, htd]
  simp
theorem wxFirstPat_typ (col : String) (h : wxFirstPat col = some WxPat.typ) :
    pyIn "收/支" col = true := by
  rw [wxFirstPat] at h
  by_cases h1 : pyIn "交易时间" col = true
  · rw [if_pos h1] at h; exact absurd h (by simp)
  rw [if_neg h1] at h
  by_cases h2 : pyIn "收/支" col = true
  · exact h2
  rw [if_neg h2] at h
  by_cases h3 : pyIn "金额" col = true
  · rw [if_pos h3] at h; exact absurd h (by simp)
  rw [if_neg h3] at h
  by_cases h4 : pyIn "当前状态" col = true
  · rw [if_pos h4] at h; exact absurd h (by simp)
  · rw [if_neg h4] at h; exact absurd h (by simp)

theorem wxFirstPat_amount (col : String) (h : wxFirstPat col = some WxPat.amount) :
    pyIn "金额" col = true := by
  rw [wxFirstPat] at h
  by_cases h1 : pyIn "交易时间" col = true
  · rw [if_pos h1] at h; exact absurd h (by simp)
  rw [if_neg h1] at h
  by_cases h2 : pyIn "收/支" col = true
  · rw [if_pos h2] at h; exact absurd h (by simp)
  rw [if_neg h2] at h
  by_cases h3 : pyIn "金额" col = true
  · exact h3
  rw [if_neg h3] at h
  by_cases h4 : pyIn "当前状态" col = true
  · rw [if_pos h4] at h; exact absurd h (by simp)
  · rw [if_neg h4] at h; exact absurd h (by simp)

/-- C5: re-parsing the written quote-all output with the standard quote-aware
comma-separated reader yields exactly the header and the records that were
written, for every header and every record list — the quoting is lossless. -/
theorem claim_c5_roundtrip (header : List String) (records : List (List String)) :
    csvRead (csvWriteAll (header :: records)) = some (header :: records) :=
  csvRead_write (header :: records)

/-- C7: each pipeline either returns its result or, when the body of the
`try` block fails, the boundary handler absorbs the failure and the pipeline
returns the null result; the failure never propagates to the caller. -/
theorem claim_c7_boundary (rows : List (List String)) :
    ((∃ r, alipayBody rows = .ok r ∧ process_alipay_csv rows = some r) ∨
      (∃ e, alipayBody rows = .error e ∧ process_alipay_csv rows = none)) ∧
    ((∃ r, weixinBody rows = .ok r ∧ process_weixin_csv rows = some r) ∨
      (∃ e, weixinBody rows = .error e ∧ process_weixin_csv rows = none)) := by
  constructor
  · match h : alipayBody rows with
    | .ok r => exact .inl ⟨r, rfl, by rw [process_alipay_csv, h]⟩
    | .error e => exact .inr ⟨e, rfl, by rw [process_alipay_csv, h]⟩
  · match h : weixinBody rows with
    | .ok r => exact .inl ⟨r, rfl, by rw [process_weixin_csv, h]⟩
    | .error e => exact .inr ⟨e, rfl, by rw [process_weixin_csv, h]⟩

/-- C6: the decoder first tries the detected encoding on the whole input; on
failure it walks the fixed ordered fallback list and returns the lines of
the first encoding that decodes — in particular an input undecodable under
the detected encoding but decodable as gbk is returned silently — and only
when every attempt fails does it raise the convert-by-hand error. -/
theorem claim_c6_decoder (decode : String → Option (List String)) (detected : String)
    (lines gbkLines : List String) :
    (decode detected = some lines → read_file_with_encoding decode detected = .ok lines) ∧
    (decode detected = none →
      read_file_with_encoding decode detected = tryEncodings decode fallback_encodings) ∧
    (decode detected = none → decode "gbk" = some gbkLines →
      read_file_with_encoding decode detected = .ok gbkLines) ∧
    (decode detected = none → (∀ enc ∈ fallback_encodings, decode enc = none) →
      read_file_with_encoding decode detected =
        .error "无法识别文件编码，请尝试手动转换文件编码为UTF-8") ∧
    (∀ enc rest ls, decode enc = some ls → tryEncodings decode (enc :: rest) = .ok ls) ∧
    (∀ enc rest, decode enc = none →
      tryEncodings decode (enc :: rest) = tryEncodings decode rest) := by
  refine ⟨?_, ?_, ?_, ?_, ?_, ?_⟩
  · intro h; rw [read_file_with_encoding, h]
  · intro h; rw [read_file_with_encoding, h]
  · intro h hg
    rw [read_file_with_encoding, h, fallback_encodings, tryEncodings, hg]
  · intro h hall
    rw [read_file_with_encoding, h]
    rw [fallback_encodings] at hall ⊢
    rw [tryEncodings, hall "gbk" (by simp), tryEncodings, hall "gb18030" (by simp),
      tryEncodings, hall "cp936" (by simp), tryEncodings, hall "utf-8-sig" (by simp),
      tryEncodings, hall "utf-8" (by simp), tryEncodings]
  · intro enc rest ls h; rw [tryEncodings, h]
  · intro enc rest h; rw [tryEncodings, h]

/-- C6 witness: a decode map failing for the detected encoding but decoding
as gbk makes the decoder return the gbk lines silently. -/
theorem claim_c6_decoder_witness :
    (fun e => if e = "gbk" then some ["第一行"] else none) "utf-8" = none ∧
    (fun e => if e = "gbk" then some ["第一行"] else none) "gbk" = some ["第一行"] ∧
    read_file_with_encoding (fun e => if e = "gbk" then some ["第一行"] else none) "utf-8" =
      .ok ["第一行"] :=
  ⟨by decide, by decide,
    (claim_c6_decoder (fun e => if e = "gbk" then some ["第一行"] else none) "utf-8"
      [] ["第一行"]).2.2.1 (by decide) (by decide)⟩

/-- C8: a row with fewer than seven cells, or no more cells than the
resolved status index (Alipay), or no more cells than the maximum resolved
index (WeChat), is dropped by the guard before any cell access; under the
guard every index the row path uses is in bounds, so the out-of-range
fallback branch of each cell access is unreachable. -/
theorem claim_c8_bounds (i : Nat) (cols : WxCols) (row : List String) :
    ((row.length < 7 ∨ row.length ≤ i) → alipayStep i row = ARow.drop) ∧
    (¬ alipayTooShort i row →
      0 < row.length ∧ 5 < row.length ∧ 6 < row.length ∧ i < row.length ∧
      alipayIncomeCell row = row.getD 5 "" ∧
      alipayStatusCell i row = row.getD i "" ∧
      alipayAmountCell row = row.getD 6 "") ∧
    (row.length ≤ Nat.max cols.time_index (Nat.max cols.type_index
        (Nat.max cols.amount_index cols.status_index)) → weixinStep cols row = WRow.drop) ∧
    (¬ wxTooShort cols row →
      cols.time_index < row.length ∧ cols.type_index < row.length ∧
      cols.amount_index < row.length ∧ cols.status_index < row.length ∧
      wxTypeCell cols row = row.getD cols.type_index "" ∧
      wxStatusCell cols row = row.getD cols.status_index "" ∧
      wxAmountCell cols row = row.getD cols.amount_index "") := by
  refine ⟨?_, ?_, ?_, ?_⟩
  · intro h
    have hts : alipayTooShort i row := by
      right
      have h1 : (6 : Nat) ≤ Nat.max i (Nat.max 5 6) :=
        le_trans (Nat.le_max_right 5 6) (Nat.le_max_right i _)
      have h2 : i ≤ Nat.max i (Nat.max 5 6) := Nat.le_max_left _ _
      omega
    rw [alipayStep, if_pos hts]
  · intro h
    obtain ⟨h0, h5, h6, hi⟩ := alipay_not_tooShort h
    exact ⟨h0, h5, h6, hi, by rw [alipayIncomeCell, if_pos h5],
      by rw [alipayStatusCell, if_pos hi], by rw [alipayAmountCell, if_pos h6]⟩
  · intro h
    have hts : wxTooShort cols row := Or.inr h
    rw [weixinStep, if_pos hts]
  · intro h
    obtain ⟨ht, hty, ha, hs⟩ := wx_not_tooShort h
    exact ⟨ht, hty, ha, hs, by rw [wxTypeCell, if_pos hty],
      by rw [wxStatusCell, if_pos hs], by rw [wxAmountCell, if_pos ha]⟩

/-- C8 witness: an eight-cell row with the default column indices passes the
guards, and a six-cell row is dropped. -/
theorem claim_c8_bounds_witness :
    (¬ alipayTooShort 3 ["a", "b", "c", "d", "e", "f", "g", "h"]) ∧
    (3 < (["a", "b", "c", "d", "e", "f", "g", "h"] : List String).length) ∧
    ((["a", "b", "c"] : List String).length < 7 ∨
      (["a", "b", "c"] : List String).length ≤ 3) ∧
    alipayStep 3 ["a", "b", "c"] = ARow.drop :=
  ⟨by decide, by decide, by decide,
    (claim_c8_bounds 3 ⟨0, 5, 5, 7⟩ ["a", "b", "c"]).1 (by decide)⟩

/-- C9: an emitted record differs from its input row only at the date cell
and the amount cell (Alipay: indices 0 and 6; WeChat: the resolved time and
amount indices); every other cell and the row length pass through unchanged.
The source builds the record from a copy `list(row)`, so the input row
itself is untouched — in this embedding rows are immutable values. -/
theorem claim_c9_frame (i : Nat) (cols : WxCols) (row rec : List String) :
    (alipayStep i row = ARow.emit rec →
      rec.length = row.length ∧
      ∀ j, j ≠ 0 → j ≠ 6 → rec.getD j "" = row.getD j "") ∧
    (weixinStep cols row = WRow.emit rec →
      rec.length = row.length ∧
      ∀ j, j ≠ cols.time_index → j ≠ cols.amount_index →
        rec.getD j "" = row.getD j "") := by
  constructor
  · intro h
    obtain ⟨date, v, -, -, -, -, -, hrec⟩ := alipayStep_emit h
    subst hrec
    refine ⟨by simp, ?_⟩
    intro j hj0 hj6
    rw [getD_set_other _ 6 j _ _ (fun hh => hj6 hh.symm),
      getD_set_other _ 0 j _ _ (fun hh => hj0 hh.symm)]
  · intro h
    obtain ⟨date, v, -, -, -, -, hrec⟩ := weixinStep_emit h
    subst hrec
    refine ⟨by simp, ?_⟩
    intro j hjt hja
    rw [getD_set_other _ cols.amount_index j _ _ (fun hh => hja hh.symm),
      getD_set_other _ cols.time_index j _ _ (fun hh => hjt hh.symm)]

/-- C9 witness: a concrete emitted Alipay record agrees with its row away
from cells 0 and 6. -/
theorem claim_c9_frame_witness :
    alipayStep 3 ["2024-01-05 10:00:00", "a", "b", "s", "c", "支出", "50.5", "x"] =
      ARow.emit ["2024-01-05", "a", "b", "s", "c", "支出", "-50.5", "x"] ∧
    (["2024-01-05", "a", "b", "s", "c", "支出", "-50.5", "x"] : List String).length =
      (["2024-01-05 10:00:00", "a", "b", "s", "c", "支出", "50.5", "x"] : List String).length ∧
    ∀ j, j ≠ 0 → j ≠ 6 →
      (["2024-01-05", "a", "b", "s", "c", "支出", "-50.5", "x"] : List String).getD j "" =
        (["2024-01-05 10:00:00", "a", "b", "s", "c", "支出", "50.5", "x"] : List String).getD j "" := by
  have hstep : alipayStep 3 ["2024-01-05 10:00:00", "a", "b", "s", "c", "支出", "50.5", "x"] =
      ARow.emit ["2024-01-05", "a", "b", "s", "c", "支出", "-50.5", "x"] := by decide
  have := (claim_c9_frame 3 ⟨0, 5, 5, 7⟩
    ["2024-01-05 10:00:00", "a", "b", "s", "c", "支出", "50.5", "x"]
    ["2024-01-05", "a", "b", "s", "c", "支出", "-50.5", "x"]).1 hstep
  exact ⟨hstep, this.1, this.2⟩

/-- C1: for every kept row in either pipeline, when the income/expense
indicator cell reads `支出` the emitted amount string parses back to the
negation of the parsed input amount, and for every other indicator value it
parses back to the parsed input amount unchanged. -/
theorem claim_c1_amount_sign (i : Nat) (cols : WxCols) (row rec : List String) :
    (alipayStep i row = ARow.emit rec →
      ∃ v w : PyFloat,
        pyFloatOfString (alipayAmountCell row) = some v ∧
        pyFloatOfString (rec.getD 6 "") = some w ∧
        (alipayIncomeCell row = "支出" → w.val = -v.val) ∧
        (alipayIncomeCell row ≠ "支出" → w.val = v.val)) ∧
    (weixinStep cols row = WRow.emit rec →
      ∃ v w : PyFloat,
        pyFloatOfString (wxAmountStr cols row) = some v ∧
        pyFloatOfString (rec.getD cols.amount_index "") = some w ∧
        (wxTypeCell cols row = "支出" → w.val = -v.val) ∧
        (wxTypeCell cols row ≠ "支出" → w.val = v.val)) := by
  constructor
  · intro h
    obtain ⟨date, v, hts, hd, hie, hst, hv, hrec⟩ := alipayStep_emit h
    obtain ⟨-, -, h6, -⟩ := alipay_not_tooShort hts
    have hlen : 6 < (row.set 0 date).length := by simpa using h6
    have hgot : rec.getD 6 "" =
        pyFloatToString (if alipayIncomeCell row = "支出" then negPF v else v) := by
      rw [hrec]
      exact getD_set_self _ 6 _ "" hlen
    obtain ⟨w, hw, hwv⟩ :=
      pyFloat_round_trip (if alipayIncomeCell row = "支出" then negPF v else v)
    refine ⟨v, w, hv, by rw [hgot]; exact hw, ?_, ?_⟩
    · intro hx; rw [hwv, if_pos hx, negPF_val]
    · intro hx; rw [hwv, if_neg hx]
  · intro h
    obtain ⟨date, v, hts, hd, hst, hv, hrec⟩ := weixinStep_emit h
    obtain ⟨-, -, hal, -⟩ := wx_not_tooShort hts
    have hlen : cols.amount_index < (row.set cols.time_index date).length := by simpa using hal
    have hgot : rec.getD cols.amount_index "" =
        pyFloatToString (if wxTypeCell cols row = "支出" then negPF v else v) := by
      rw [hrec]
      exact getD_set_self _ _ _ "" hlen
    obtain ⟨w, hw, hwv⟩ :=
      pyFloat_round_trip (if wxTypeCell cols row = "支出" then negPF v else v)
    refine ⟨v, w, hv, by rw [hgot]; exact hw, ?_, ?_⟩
    · intro hx; rw [hwv, if_pos hx, negPF_val]
    · intro hx; rw [hwv, if_neg hx]

/-- C1 witness: the concrete `支出` row with amount `50.5` is kept and its
emitted amount parses back to the negated value. -/
theorem claim_c1_amount_sign_witness :
    alipayStep 3 ["2024-01-05 10:00:00", "a", "b", "s", "c", "支出", "50.5", "x"] =
      ARow.emit ["2024-01-05", "a", "b", "s", "c", "支出", "-50.5", "x"] ∧
    (∃ v w : PyFloat,
      pyFloatOfString
        (alipayAmountCell ["2024-01-05 10:00:00", "a", "b", "s", "c", "支出", "50.5", "x"]) =
          some v ∧
      pyFloatOfString
        ((["2024-01-05", "a", "b", "s", "c", "支出", "-50.5", "x"] : List String).getD 6 "") =
          some w ∧
      (alipayIncomeCell ["2024-01-05 10:00:00", "a", "b", "s", "c", "支出", "50.5", "x"] =
          "支出" → w.val = -v.val) ∧
      (alipayIncomeCell ["2024-01-05 10:00:00", "a", "b", "s", "c", "支出", "50.5", "x"] ≠
          "支出" → w.val = v.val)) := by
  have hstep : alipayStep 3 ["2024-01-05 10:00:00", "a", "b", "s", "c", "支出", "50.5", "x"] =
      ARow.emit ["2024-01-05", "a", "b", "s", "c", "支出", "-50.5", "x"] := by decide
  exact ⟨hstep,
    (claim_c1_amount_sign 3 ⟨0, 5, 5, 7⟩
      ["2024-01-05 10:00:00", "a", "b", "s", "c", "支出", "50.5", "x"]
      ["2024-01-05", "a", "b", "s", "c", "支出", "-50.5", "x"]).1 hstep⟩

/-- C3: every emitted record carries, in its date cell, exactly the leading
ten-character `YYYY-MM-DD` prefix of the original date cell, and a row whose
date cell has no leading match is skipped and never emitted. -/
theorem claim_c3_date (i : Nat) (cols : WxCols) (row rec : List String) :
    (alipayStep i row = ARow.emit rec →
      ∃ d : String, dateMatch (row.getD 0 "") = some d ∧
        d.toList = (row.getD 0 "").toList.take 10 ∧ rec.getD 0 "" = d) ∧
    (dateMatch (row.getD 0 "") = none → alipayStep i row ≠ ARow.emit rec) ∧
    (weixinStep cols row = WRow.emit rec →
      ∃ d : String, dateMatch (row.getD cols.time_index "") = some d ∧
        d.toList = (row.getD cols.time_index "").toList.take 10 ∧
        rec.getD cols.time_index "" = d) ∧
    (dateMatch (row.getD cols.time_index "") = none →
      weixinStep cols row ≠ WRow.emit rec) := by
  refine ⟨?_, ?_, ?_, ?_⟩
  · intro h
    obtain ⟨date, v, hts, hd, -, -, -, hrec⟩ := alipayStep_emit h
    obtain ⟨h0, -, -, -⟩ := alipay_not_tooShort hts
    refine ⟨date, hd, dateMatch_take hd, ?_⟩
    rw [hrec, getD_set_other _ 6 0 _ _ (by omega),
      getD_set_self _ 0 _ "" (by simpa using h0)]
  · intro hn h
    obtain ⟨date, v, -, hd, -, -, -, -⟩ := alipayStep_emit h
    rw [hn] at hd
    exact absurd hd (by simp)
  · intro h
    obtain ⟨date, v, hts, hd, -, hv, hrec⟩ := weixinStep_emit h
    obtain ⟨htl, -, hal, -⟩ := wx_not_tooShort hts
    by_cases hta : cols.time_index = cols.amount_index
    · exfalso
      have hcell : wxAmountCell cols row = row.getD cols.time_index "" := by
        rw [wxAmountCell, if_pos hal, ← hta]
      have : pyFloatOfString (wxAmountStr cols row) = none := by
        rw [wxAmountStr, hcell]
        exact pyFloatOfString_dateLead hd
      rw [this] at hv
      exact absurd hv (by simp)
    · refine ⟨date, hd, dateMatch_take hd, ?_⟩
      rw [hrec, getD_set_other _ cols.amount_index cols.time_index _ _
        (fun hh => hta hh.symm),
        getD_set_self _ _ _ "" (by simpa using htl)]
  · intro hn h
    obtain ⟨date, v, -, hd, -, -, -⟩ := weixinStep_emit h
    rw [hn] at hd
    exact absurd hd (by simp)

/-- C3 witness: the concrete row's date cell `2024-01-05 10:00:00` is reduced
to its leading ten characters `2024-01-05` in the emitted record. -/
theorem claim_c3_date_witness :
    alipayStep 3 ["2024-01-05 10:00:00", "a", "b", "s", "c", "支出", "50.5", "x"] =
      ARow.emit ["2024-01-05", "a", "b", "s", "c", "支出", "-50.5", "x"] ∧
    (∃ d : String,
      dateMatch ((["2024-01-05 10:00:00", "a", "b", "s", "c", "支出", "50.5", "x"] :
        List String).getD 0 "") = some d ∧
      d.toList = ((["2024-01-05 10:00:00", "a", "b", "s", "c", "支出", "50.5", "x"] :
        List String).getD 0 "").toList.take 10 ∧
      (["2024-01-05", "a", "b", "s", "c", "支出", "-50.5", "x"] : List String).getD 0 "" = d) := by
  have hstep : alipayStep 3 ["2024-01-05 10:00:00", "a", "b", "s", "c", "支出", "50.5", "x"] =
      ARow.emit ["2024-01-05", "a", "b", "s", "c", "支出", "-50.5", "x"] := by decide
  exact ⟨hstep,
    (claim_c3_date 3 ⟨0, 5, 5, 7⟩
      ["2024-01-05 10:00:00", "a", "b", "s", "c", "支出", "50.5", "x"]
      ["2024-01-05", "a", "b", "s", "c", "支出", "-50.5", "x"]).1 hstep⟩

/-- C2 counterexample: in an Alipay input whose only data row carries status
`交易关闭` at the resolved status index but an unparseable date, the row
count with that status is one while the returned `closed_count` is zero —
the counter does not equal the number of such rows in the input. -/
theorem claim_c2_counterexample :
    (process_alipay_csv
        [["h0", "h1", "h2", "h3", "h4", "h5", "h6"],
         ["x", "a", "b", "交易关闭", "c", "d", "e", "f"]]).map
      (fun r => r.stats.closed_count) = some 0 ∧
    alipayStatusIdx ["h0", "h1", "h2", "h3", "h4", "h5", "h6"] = 3 ∧
    [["x", "a", "b", "交易关闭", "c", "d", "e", "f"]].countP
      (fun row => decide (alipayStatusCell 3 row = "交易关闭")) = 1 := by
  refine ⟨by decide, by decide, by decide⟩

/-- C2 (amended): a row whose status cell at the resolved index carries an
exclusion value is never emitted, and each exclusion counter equals exactly
the number of input rows that also pass the earlier per-row checks — the
length guard and the date parse, and for Alipay the `不计收支` filter — as
`alipayClosedRow` and `wxExcludedRow` state. -/
theorem claim_c2_exclusion (i : Nat) (cols : WxCols) (rows : List (List String)) :
    (∀ row rec, alipayStatusCell i row = "交易关闭" → alipayStep i row ≠ ARow.emit rec) ∧
    ((alipayLoop i rows).2.closed_count =
      rows.countP (fun row => decide (alipayClosedRow i row))) ∧
    (∀ row rec, wxExcludedStatus (wxStatusCell cols row) →
      weixinStep cols row ≠ WRow.emit rec) ∧
    ((weixinLoop cols rows).2.excluded_status_count =
      rows.countP (fun row => decide (wxExcludedRow cols row))) := by
  refine ⟨?_, ?_, ?_, ?_⟩
  · intro row rec hst h
    obtain ⟨-, -, -, -, -, hst', -, -⟩ := alipayStep_emit h
    exact hst' hst
  · rw [alipayLoop, alipayFold_closed_count]
    simp
  · intro row rec hst h
    obtain ⟨-, -, -, -, hst', -, -⟩ := weixinStep_emit h
    exact hst' hst
  · rw [weixinLoop, weixinFold_excluded_count]
    simp

/-- C2 witness: a closed-status row that passes the earlier checks is not
emitted and is counted exactly once by the loop. -/
theorem claim_c2_exclusion_witness :
    alipayStatusCell 3 ["2024-01-05", "a", "b", "交易关闭", "c", "d", "7.5", "x"] =
      "交易关闭" ∧
    alipayStep 3 ["2024-01-05", "a", "b", "交易关闭", "c", "d", "7.5", "x"] ≠
      ARow.emit ["2024-01-05", "a", "b", "交易关闭", "c", "d", "7.5", "x"] ∧
    (alipayLoop 3 [["2024-01-05", "a", "b", "交易关闭", "c", "d", "7.5", "x"]]).2.closed_count =
      [["2024-01-05", "a", "b", "交易关闭", "c", "d", "7.5", "x"]].countP
        (fun row => decide (alipayClosedRow 3 row)) := by
  refine ⟨by decide, ?_, ?_⟩
  · exact (claim_c2_exclusion 3 ⟨0, 5, 5, 7⟩
      [["2024-01-05", "a", "b", "交易关闭", "c", "d", "7.5", "x"]]).1
      ["2024-01-05", "a", "b", "交易关闭", "c", "d", "7.5", "x"]
      ["2024-01-05", "a", "b", "交易关闭", "c", "d", "7.5", "x"] (by decide)
  · exact (claim_c2_exclusion 3 ⟨0, 5, 5, 7⟩
      [["2024-01-05", "a", "b", "交易关闭", "c", "d", "7.5", "x"]]).2.1

/-- C4 counterexample: with the single header cell `交易时间金额` a cell
containing `金额` exists, yet the resolved amount index keeps its default 5
(not the index of any cell of this one-cell header): the elif chain
attributes the cell to the time pattern only, so the claimed override does
not happen. -/
theorem claim_c4_counterexample :
    pyIn "金额" "交易时间金额" = true ∧
    (weixinResolve ["交易时间金额"]).amount_index = 5 ∧
    (weixinResolve ["交易时间金额"]).time_index = 0 ∧
    (["交易时间金额"] : List String).length = 1 := by
  refine ⟨by decide, by decide, by decide, by decide⟩

/-- C4 (amended): the Alipay status index is overridden to the first header
cell containing `交易状态` whenever one exists and keeps the default 3
otherwise; each WeChat index is overridden to the last header cell whose
first applicable pattern — in the elif order time, income/expense, amount,
status — is the corresponding one, and keeps its default (0, 5, 5, 7) when
no cell is attributed to that pattern; a cell matching an earlier pattern is
never counted for a later one. -/
theorem claim_c4_resolution (header : List String) :
    ((∀ col ∈ header, pyIn "交易状态" col = false) → alipayStatusIdx header = 3) ∧
    ((∃ col ∈ header, pyIn "交易状态" col = true) →
      alipayStatusIdx header < header.length ∧
      pyIn "交易状态" (header.getD (alipayStatusIdx header) "") = true ∧
      ∀ k, k < alipayStatusIdx header → pyIn "交易状态" (header.getD k "") = false) ∧
    (weixinResolve header).time_index = (lastMatchFrom WxPat.time 0 header).getD 0 ∧
    (weixinResolve header).type_index = (lastMatchFrom WxPat.typ 0 header).getD 5 ∧
    (weixinResolve header).amount_index = (lastMatchFrom WxPat.amount 0 header).getD 5 ∧
    (weixinResolve header).status_index = (lastMatchFrom WxPat.status 0 header).getD 7 ∧
    (∀ (p : WxPat) (j : Nat), lastMatchFrom p 0 header = some j →
      j < header.length ∧ wxFirstPat (header.getD j "") = some p ∧
      ∀ k, j < k → k < header.length → wxFirstPat (header.getD k "") ≠ some p) ∧
    (∀ p : WxPat, lastMatchFrom p 0 header = none ↔
      ∀ col ∈ header, wxFirstPat col ≠ some p) := by
  refine ⟨?_, ?_, weixinScan_time header 0 ⟨0, 5, 5, 7⟩, weixinScan_typ header 0 ⟨0, 5, 5, 7⟩,
    weixinScan_amount header 0 ⟨0, 5, 5, 7⟩, weixinScan_status header 0 ⟨0, 5, 5, 7⟩,
    ?_, fun p => lastMatchFrom_none p header 0⟩
  · exact alipayStatusScan_none header 0
  · intro hex
    obtain ⟨h1, h2, h3, h4⟩ := alipayStatusScan_found header 0 hex
    refine ⟨by simpa using h2, by simpa using h3, ?_⟩
    intro k hk
    exact h4 k (by simpa using hk)
  · intro p j h
    obtain ⟨h1, h2, h3, h4⟩ := lastMatchFrom_some p header 0 j h
    exact ⟨by simpa using h2, by simpa using h3, fun k hk1 hk2 => h4 k (by omega) hk2⟩

/-- C4 witness: a header whose second cell contains `交易状态` resolves the
Alipay status index to that cell, and a WeChat header with `收/支` at 4 and
`金额(元)` at 6 resolves the type and amount indices to 4 and 6. -/
theorem claim_c4_resolution_witness :
    (∃ col ∈ ["h0", "某交易状态列"], pyIn "交易状态" col = true) ∧
    (alipayStatusIdx ["h0", "某交易状态列"] < (["h0", "某交易状态列"] : List String).length ∧
      pyIn "交易状态"
        ((["h0", "某交易状态列"] : List String).getD
          (alipayStatusIdx ["h0", "某交易状态列"]) "") = true ∧
      ∀ k, k < alipayStatusIdx ["h0", "某交易状态列"] →
        pyIn "交易状态" ((["h0", "某交易状态列"] : List String).getD k "") = false) ∧
    (weixinResolve ["交易时间", "a", "b", "c", "收/支", "d", "金额(元)", "当前状态"]).type_index =
      (lastMatchFrom WxPat.typ 0
        ["交易时间", "a", "b", "c", "收/支", "d", "金额(元)", "当前状态"]).getD 5 ∧
    (weixinResolve ["交易时间", "a", "b", "c", "收/支", "d", "金额(元)", "当前状态"]).type_index = 4 ∧
    (weixinResolve ["交易时间", "a", "b", "c", "收/支", "d", "金额(元)", "当前状态"]).amount_index = 6 := by
  refine ⟨by decide, ?_, ?_, by decide, by decide⟩
  · exact (claim_c4_resolution ["h0", "某交易状态列"]).2.1 (by decide)
  · exact (claim_c4_resolution
      ["交易时间", "a", "b", "c", "收/支", "d", "金额(元)", "当前状态"]).2.2.2.1

/-- C10: when no WeChat header cell contains `收/支` and none contains
`金额`, the type and amount indices both stay at their shared default 5, the
amount is parsed from the indicator cell, and any row whose cell 5 reads
`支出` fails the float parse — when it passes the guard, the date parse and
the status filter it is dropped silently, and no such expense row is ever
emitted. -/
theorem claim_c10_default_overlap (header : List String) (row : List String)
    (hh : ∀ col ∈ header, pyIn "收/支" col = false ∧ pyIn "金额" col = false) :
    (weixinResolve header).type_index = 5 ∧
    (weixinResolve header).amount_index = 5 ∧
    (row.getD 5 "" = "支出" →
      (∀ rec, weixinStep (weixinResolve header) row ≠ WRow.emit rec) ∧
      (¬ wxTooShort (weixinResolve header) row →
        (dateMatch (row.getD (weixinResolve header).time_index "")).isSome = true →
        ¬ wxExcludedStatus (wxStatusCell (weixinResolve header) row) →
        weixinStep (weixinResolve header) row = WRow.drop)) := by
  have htyp : (weixinResolve header).type_index = 5 := by
    rw [weixinResolve, weixinScan_typ]
    rw [(lastMatchFrom_none WxPat.typ header 0).mpr
      (fun col hc hp => by
        have := wxFirstPat_typ col hp
        rw [(hh col hc).1] at this
        exact absurd this (by simp))]
    rfl
  have hamt : (weixinResolve header).amount_index = 5 := by
    rw [weixinResolve, weixinScan_amount]
    rw [(lastMatchFrom_none WxPat.amount header 0).mpr
      (fun col hc hp => by
        have := wxFirstPat_amount col hp
        rw [(hh col hc).2] at this
        exact absurd this (by simp))]
    rfl
  refine ⟨htyp, hamt, ?_⟩
  intro h5
  have hparse : ¬ wxTooShort (weixinResolve header) row →
      pyFloatOfString (wxAmountStr (weixinResolve header) row) = none := by
    intro hts
    obtain ⟨-, -, hal, -⟩ := wx_not_tooShort hts
    have hcell : wxAmountCell (weixinResolve header) row = "支出" := by
      rw [wxAmountCell, if_pos hal, hamt, h5]
    rw [wxAmountStr, hcell]
    decide
  constructor
  · intro rec hemit
    obtain ⟨date, v, hts, hd, hst, hv, -⟩ := weixinStep_emit hemit
    rw [hparse hts] at hv
    exact absurd hv (by simp)
  · intro hts hd hst
    rw [weixinStep, if_neg hts]
    obtain ⟨dd, hdd⟩ := Option.isSome_iff_exists.mp hd
    rw [hdd]
    simp only []
    rw [if_neg hst, hparse hts]

/-- C10 witness: under a header with neither `收/支` nor `金额`, a row whose
cell 5 reads `支出` is dropped, not emitted. -/
theorem claim_c10_default_overlap_witness :
    (∀ col ∈ ["交易时间", "h1", "h2", "h3", "h4", "h5", "h6", "当前状态"],
      pyIn "收/支" col = false ∧ pyIn "金额" col = false) ∧
    ((["2024-01-05 10:00", "a", "b", "c", "d", "支出", "e", "正常"] : List String).getD 5 "" =
      "支出") ∧
    (weixinResolve ["交易时间", "h1", "h2", "h3", "h4", "h5", "h6", "当前状态"]).type_index = 5 ∧
    (weixinResolve ["交易时间", "h1", "h2", "h3", "h4", "h5", "h6", "当前状态"]).amount_index = 5 ∧
    (∀ rec, weixinStep (weixinResolve ["交易时间", "h1", "h2", "h3", "h4", "h5", "h6", "当前状态"])
      ["2024-01-05 10:00", "a", "b", "c", "d", "支出", "e", "正常"] ≠ WRow.emit rec) := by
  have hh : ∀ col ∈ ["交易时间", "h1", "h2", "h3", "h4", "h5", "h6", "当前状态"],
      pyIn "收/支" col = false ∧ pyIn "金额" col = false := by decide
  have h5 : (["2024-01-05 10:00", "a", "b", "c", "d", "支出", "e", "正常"] :
      List String).getD 5 "" = "支出" := by decide
  obtain ⟨h1, h2, h3⟩ := claim_c10_default_overlap
    ["交易时间", "h1", "h2", "h3", "h4", "h5", "h6", "当前状态"]
    ["2024-01-05 10:00", "a", "b", "c", "d", "支出", "e", "正常"] hh
  exact ⟨hh, h5, h1, h2, (h3 h5).1⟩
